import Mathlib

/-!
# pamixer: command dispatch, device selection and gamma-corrected volume steps

A shallow embedding of `src/pamixer.cc` (the functions `conflicting_options`,
`get_selected_device`, `gammaCorrection` and `main`) and the properties its
specification states about them.

* A `double` is a value of `Dbl`: a finite double is the rational it denotes,
  beside them stand `-0.0`, the two infinities and NaN.  Every arithmetic
  operation is the exact operation followed by IEEE 754 round-to-nearest-even to
  binary64 (`rnd`, `round_to`), subnormals included, an overflow giving an
  infinity; the operations on zeros, infinities and NaN follow IEEE 754.
* The conversion of a double to `pa_volume_t` is undefined in C++ when the
  truncated value is not representable: `to_pa_volume_t` is `none` there, and
  `main` goes on with an unspecified `pa_volume_t`, a parameter.
* The function `pow` of libm lies outside the repository: it is a parameter of
  `gammaCorrection` and `main`.  `libm_pow` gives its values where C11 Annex F
  fixes them or the mathematical power is rational.
* A `po::variables_map` is a finite map over the sixteen options that `main`
  declares.
* The classes `Pulseaudio` and `Device` (pulseaudio.hh, device.hh) are not among
  the sources; they are modelled from sections 3 and 6 of the specification.
-/

namespace Pamixer

/-! ## Definitions: binary64 arithmetic -/

/-- The exponent `e` of the binade `2^e ≤ |x| < 2^(e+1)` that holds a nonzero `x`. -/
def binade (x : ℚ) : ℤ := Int.log 2 |x|

/-- The exponent of the unit in the last place of the doubles around `x`: 53
significant bits, least exponent `-1074` (the subnormal spacing). -/
def qexp (x : ℚ) : ℤ := max (binade x - 52) (-1074)

/-- The unit in the last place of the doubles around `x`. -/
def ulp (x : ℚ) : ℚ := (2 : ℚ) ^ qexp x

/-- Nearest integer, a tie going to the even one. -/
def roundEven (q : ℚ) : ℤ :=
  if q - ⌊q⌋ < 1 / 2 then ⌊q⌋
  else if 1 / 2 < q - ⌊q⌋ then ⌊q⌋ + 1
  else if ⌊q⌋ % 2 = 0 then ⌊q⌋ else ⌊q⌋ + 1

/-- Round to nearest, ties to even, on the binary64 grid (exponent unbounded above). -/
def rnd (x : ℚ) : ℚ := roundEven (x / ulp x) * ulp x

/-- The largest finite double. -/
def DBL_MAX : ℚ := (2 ^ 53 - 1) * 2 ^ 971

/-- A finite double: a rational that rounding leaves unchanged, within range. -/
def is_double (x : ℚ) : Prop := rnd x = x ∧ |x| ≤ DBL_MAX

/-- A binary64 value.  A finite one is the rational it denotes, `fin 0` being
`+0.0`; `nzero` is `-0.0`. -/
inductive Dbl
  | fin (x : ℚ)
  | nzero
  | pinf
  | ninf
  | nan
  deriving DecidableEq

/-- The rational that a finite double denotes (0 for `-0.0`). -/
def Dbl.val : Dbl → ℚ
  | .fin x => x
  | _ => 0

/-- The sign bit of a double. -/
def Dbl.sign : Dbl → Bool
  | .fin x => decide (x < 0)
  | .nzero => true
  | .ninf => true
  | _ => false

/-- Finite: neither an infinity nor NaN. -/
def Dbl.is_finite : Dbl → Bool
  | .fin _ => true
  | .nzero => true
  | _ => false

/-- One of the two infinities. -/
def Dbl.is_inf : Dbl → Bool
  | .pinf => true
  | .ninf => true
  | _ => false

/-- One of the two zeros. -/
def Dbl.is_zero : Dbl → Bool
  | .fin x => decide (x = 0)
  | .nzero => true
  | _ => false

/-- The infinity of a sign. -/
def signed_inf (negative : Bool) : Dbl := if negative then .ninf else .pinf

/-- The zero of a sign. -/
def signed_zero (negative : Bool) : Dbl := if negative then .nzero else .fin 0

/-- The double that an exact result `x` is rounded to: an infinity on overflow,
a zero with the sign of `x` on underflow; an exact zero takes the sign
`negative` that the operation gives it. -/
def round_to (x : ℚ) (negative : Bool) : Dbl :=
  if DBL_MAX < |rnd x| then signed_inf (decide (x < 0))
  else if rnd x = 0 then signed_zero (decide (x < 0) || (decide (x = 0) && negative))
  else .fin (rnd x)

/-- Conversion of an `int` or an `unsigned` to `double`. -/
def of_int (n : ℤ) : Dbl := round_to n false

/-- Addition of doubles. -/
def fadd (a b : Dbl) : Dbl :=
  if a = .nan ∨ b = .nan then .nan
  else if a.is_inf ∧ b.is_inf then (if a = b then a else .nan)
  else if a.is_inf then a
  else if b.is_inf then b
  else round_to (a.val + b.val) (a.sign && b.sign)

/-- Multiplication of doubles. -/
def fmul (a b : Dbl) : Dbl :=
  if a = .nan ∨ b = .nan then .nan
  else if a.is_inf ∨ b.is_inf then
    (if a.is_zero ∨ b.is_zero then .nan else signed_inf (xor a.sign b.sign))
  else round_to (a.val * b.val) (xor a.sign b.sign)

/-- Division of doubles. -/
def fdiv (a b : Dbl) : Dbl :=
  if a = .nan ∨ b = .nan then .nan
  else if a.is_inf then (if b.is_inf then .nan else signed_inf (xor a.sign b.sign))
  else if b.is_inf then signed_zero (xor a.sign b.sign)
  else if b.is_zero then (if a.is_zero then .nan else signed_inf (xor a.sign b.sign))
  else round_to (a.val / b.val) (xor a.sign b.sign)

/-- The comparison `a < b` of doubles: false when either is NaN, the two zeros
being equal. -/
def flt (a b : Dbl) : Bool :=
  if a = .nan ∨ b = .nan then false
  else if a = .pinf ∨ b = .ninf then false
  else if a = .ninf ∨ b = .pinf then true
  else decide (a.val < b.val)

/-- Nearest integer to a rational, halfway cases away from zero. -/
def c_round (x : ℚ) : ℤ := if 0 ≤ x then ⌊x + 1 / 2⌋ else -⌊-x + 1 / 2⌋

/-- The C function `round` on doubles. -/
def fround : Dbl → Dbl
  | .fin x => if c_round x = 0 then signed_zero (decide (x < 0)) else .fin (c_round x)
  | a => a

/-- Truncation toward zero. -/
def truncate (x : ℚ) : ℤ := if 0 ≤ x then ⌊x⌋ else ⌈x⌉

/-- Conversion of a double to `pa_volume_t` (`uint32_t`): the value truncated
toward zero; undefined (`none`) when that is not representable, as it is for an
infinity and for NaN. -/
def to_pa_volume_t (a : Dbl) : Option ℕ :=
  if a.is_finite ∧ 0 ≤ truncate a.val ∧ truncate a.val < 2 ^ 32 then
    some (truncate a.val).toNat
  else none

/-- The order of the doubles other than NaN, the two zeros being equal. -/
def Dbl.le (a b : Dbl) : Prop :=
  a ≠ .nan ∧ b ≠ .nan ∧
    (a = .ninf ∨ b = .pinf ∨ (a.is_finite ∧ b.is_finite ∧ a.val ≤ b.val))

/-- PulseAudio's `PA_VOLUME_NORM` (`0x10000U` in pulse/volume.h, a header outside
the repository): the normalized volume that stands for 100%. -/
def PA_VOLUME_NORM : ℕ := 65536

/-- An odd integer. -/
def is_odd_integer (y : ℚ) : Bool := decide (y.den = 1) && decide (y.num % 2 = 1)

/-- The values of libm's `pow(x, y)` that C11 F.10.4.4 fixes, and those where the
mathematical power is rational: the correctly rounded `x^n` for an integral
exponent `n`, and the square root of a rational square for the exponent `1/2`.
Elsewhere (an irrational power) no value is modelled and `nan` stands in; no
property below evaluates `libm_pow` there. -/
def libm_pow (x y : Dbl) : Dbl :=
  if y.is_zero ∨ x = .fin 1 then .fin 1
  else if x = .nan ∨ y = .nan then .nan
  else if y = .pinf then
    (if x = .fin (-1) then .fin 1
     else if x.is_finite ∧ |x.val| < 1 then .fin 0 else .pinf)
  else if y = .ninf then
    (if x = .fin (-1) then .fin 1
     else if x.is_finite ∧ |x.val| < 1 then .pinf else .fin 0)
  else if x.is_zero then
    (if 0 < y.val then (if is_odd_integer y.val then x else .fin 0)
     else (if is_odd_integer y.val then signed_inf x.sign else .pinf))
  else if x = .pinf then (if 0 < y.val then .pinf else .fin 0)
  else if x = .ninf then
    (if 0 < y.val then (if is_odd_integer y.val then .ninf else .pinf)
     else (if is_odd_integer y.val then .nzero else .fin 0))
  else if y.val.den = 1 then round_to (x.val ^ y.val.num) false
  else if x.val < 0 then .nan
  else if y.val = 1 / 2 ∧ Rat.sqrt x.val * Rat.sqrt x.val = x.val then .fin (Rat.sqrt x.val)
  else .nan

/-- Contract of `pow` used for the case `gamma = 1.0`: `pow(x, 1.0)` is `x` for
every finite non-negative double `x`. -/
def pow_one_exact (pow : Dbl → Dbl → Dbl) : Prop :=
  ∀ x, is_double x → 0 ≤ x → pow (.fin x) (.fin 1) = .fin x

/-- Contract of `pow` at one exponent: on the doubles from zero to `+∞`,
`pow(., gamma)` is never NaN, non-negative and non-decreasing (as the
mathematical power is for `gamma ≥ 0`). -/
def pow_monotone_at (pow : Dbl → Dbl → Dbl) (gamma : Dbl) : Prop :=
  ∀ x y, Dbl.le (.fin 0) x → Dbl.le x y →
    Dbl.le (.fin 0) (pow x gamma) ∧ Dbl.le (pow x gamma) (pow y gamma)

/-- Accuracy of one call of `pow`: the result is a finite double within the
relative error `2^-52` (one unit in the last place) of the mathematical power. -/
def pow_accurate_at (pow : Dbl → Dbl → Dbl) (x y : ℚ) : Prop :=
  ∃ p : ℚ, pow (.fin x) (.fin y) = .fin p ∧ is_double p ∧
    |(p : ℝ) - (x : ℝ) ^ (y : ℝ)| ≤ 2 ^ (-52 : ℤ) * (x : ℝ) ^ (y : ℝ)

/-! ## Definitions: gammaCorrection (pamixer.cc:63-79) -/

/-- The function `pa_volume_t gammaCorrection(pa_volume_t i, double gamma, int delta)`;
`none` when the conversion of its last line is undefined. -/
def gammaCorrection (pow : Dbl → Dbl → Dbl) (i : ℕ) (gamma : Dbl) (delta : ℤ) : Option ℕ :=
  let j := of_int i
  let relRelta := fdiv (of_int delta) (.fin 100)
  let j := fdiv j (of_int PA_VOLUME_NORM)
  let j := pow j (fdiv (.fin 1) gamma)
  let j := fadd j relRelta
  let j := if flt j (.fin 0) then .fin 0 else j
  let j := pow j gamma
  let j := fmul j (of_int PA_VOLUME_NORM)
  to_pa_volume_t (fround j)

/-- Linear percent stepping as section 8 of the specification words it:
`clamp(v + d*VOLUME_NORM/100, 0, ∞)`, rounded to the nearest unit as in the last
step of the algorithm. -/
def linear_step (v : ℕ) (d : ℤ) : ℤ := c_round (max ((v : ℚ) + d * PA_VOLUME_NORM / 100) 0)
/-! ## Definitions: program options -/

/-- The options declared by `main` (pamixer.cc:88-104). -/
inductive Opt
  | help | sink | source | default_source | get_volume | set_volume
  | increase | decrease | toggle_mute | mute | allow_boost | gamma
  | unmute | get_mute | list_sinks | list_sources
  deriving DecidableEq, Repr

/-- The long name of an option. -/
def Opt.name : Opt → String
  | .help => "help" | .sink => "sink" | .source => "source"
  | .default_source => "default-source" | .get_volume => "get-volume"
  | .set_volume => "set-volume" | .increase => "increase" | .decrease => "decrease"
  | .toggle_mute => "toggle-mute" | .mute => "mute" | .allow_boost => "allow-boost"
  | .gamma => "gamma" | .unmute => "unmute" | .get_mute => "get-mute"
  | .list_sinks => "list-sinks" | .list_sources => "list-sources"

/-- Every declared option, in declaration order. -/
def Opt.all : List Opt :=
  [.help, .sink, .source, .default_source, .get_volume, .set_volume, .increase, .decrease,
   .toggle_mute, .mute, .allow_boost, .gamma, .unmute, .get_mute, .list_sinks, .list_sources]

/-- A stored option value.  The program reads only `defaulted()` from it: the
values themselves reach it through the bound variables `value`, `gamma`,
`sink_name` and `source_name`. -/
structure variable_value where
  defaulted : Bool
  deriving DecidableEq, Repr

/-- The class `po::variables_map`: the stored options. -/
structure variables_map where
  find : Opt → Option variable_value

/-- The member `vm.count(name)`: 1 when the option is stored, else 0. -/
def variables_map.count (vm : variables_map) (o : Opt) : ℕ :=
  if (vm.find o).isSome then 1 else 0

/-- The member `vm.size()`. -/
def variables_map.size (vm : variables_map) : ℕ :=
  (Opt.all.filter fun o => (vm.find o).isSome).length

/-- The expression `vm[name].defaulted()`; an empty value is not defaulted. -/
def variables_map.defaulted (vm : variables_map) (o : Opt) : Bool :=
  match vm.find o with
  | some v => v.defaulted
  | none => false

/-- The test that `conflicting_options` applies to each of its two options
(pamixer.cc:44-45): `vm.count(opt) && !vm[opt].defaulted()`. -/
def variables_map.given (vm : variables_map) (o : Opt) : Bool :=
  decide (vm.count o ≠ 0) && !vm.defaulted o

/-- The stored options of a command line: `gamma` is always stored (it has a
default value, pamixer.cc:100), defaulted unless it was passed; every other
stored option was passed. -/
def parsed (passed : List Opt) : variables_map where
  find o :=
    if o ∈ passed then some ⟨false⟩
    else if o = .gamma then some ⟨true⟩
    else none

/-- Only `gamma` is declared with a default value (pamixer.cc:100), so no other
stored option is defaulted. -/
def only_gamma_defaulted (vm : variables_map) : Prop :=
  ∀ o, vm.defaulted o = true → o = .gamma

/-- The eleven conflicting pairs listed in section 4.3 of the specification. -/
def declared_conflicts : List (Opt × Opt) :=
  [(.set_volume, .increase), (.set_volume, .decrease), (.decrease, .increase),
   (.toggle_mute, .mute), (.toggle_mute, .unmute), (.unmute, .mute),
   (.sink, .source), (.sink, .default_source),
   (.get_volume, .get_mute), (.get_volume, .list_sinks), (.get_volume, .list_sources)]

/-- Both options of a pair were passed (stored and not defaulted). -/
def both_given (vm : variables_map) (p : Opt × Opt) : Bool := vm.given p.1 && vm.given p.2

/-- No declared pair has both its options passed: the option set passes the
validation of section 4.3. -/
def validated (vm : variables_map) : Prop := ∀ p ∈ declared_conflicts, both_given vm p = false

instance (vm : variables_map) : Decidable (validated vm) := by
  unfold validated; infer_instance

/-- The condition of the usage path of `main` (pamixer.cc:113). -/
def shows_usage (vm : variables_map) : Prop := vm.count .help ≠ 0 ∨ vm.size < 2

instance (vm : variables_map) : Decidable (shows_usage vm) := by
  unfold shows_usage; infer_instance

/-- The action options that the specification names for the usage rule. -/
def action_options : List Opt :=
  [.set_volume, .increase, .decrease, .toggle_mute, .mute, .unmute,
   .get_volume, .get_mute, .list_sinks, .list_sources]

/-! ## Definitions: the audio backend -/

/-- Modelled from the spec: the class `Device` of device.hh, an immutable
snapshot with the fields that section 3 lists. -/
structure Device where
  index : ℕ
  name : String
  description : String
  volume_avg : ℕ
  volume_percent : ℤ
  mute : Bool
  deriving DecidableEq, Repr

/-- Modelled from the spec: the class `Pulseaudio` of pulseaudio.hh as the
capability interface of section 6 over a server state `σ`.  The connection and a
named lookup may fail; a mutation changes the server, never a snapshot. -/
structure Pulseaudio (σ : Type) where
  connect : σ → String → Except String σ
  get_default_sink : σ → Device
  get_default_source : σ → Device
  get_sink : σ → String → Except String Device
  get_source : σ → String → Except String Device
  get_sinks : σ → List Device
  get_sources : σ → List Device
  set_volume : σ → Device → ℕ → σ
  set_mute : σ → Device → Bool → σ

/-- A call received by the backend. -/
inductive Call
  | connect (client : String)
  | get_default_sink
  | get_default_source
  | get_sink (name : String)
  | get_source (name : String)
  | get_sinks
  | get_sources
  | set_volume (device : Device) (volume : ℕ)
  | set_mute (device : Device) (mute : Bool)
  deriving DecidableEq, Repr

/-- What is written to `cout`: the usage text, or a line. -/
inductive Out
  | usage
  | text (s : String)
  deriving DecidableEq, Repr

/-- What ends a run early: the `logic_error` of `conflicting_options` (none of
the handlers of `main`, pamixer.cc:191-200, takes it), or an exception of the
backend. -/
inductive Exn
  | logic_error (what : String)
  | backend (what : String)
  deriving DecidableEq, Repr

/-- The world a run acts on: the server, the calls it has received (oldest
first) and what was written to `cout`. -/
structure World (σ : Type) where
  server : σ
  calls : List Call
  cout : List Out

/-- A step of the program: a result or an exception, and the world after it. -/
def Prog (σ α : Type) : Type := World σ → Except Exn α × World σ

/-- Sequencing: an exception ends the run, the world staying as it is then. -/
def Prog.bind {σ α β : Type} (m : Prog σ α) (f : α → Prog σ β) : Prog σ β := fun w =>
  match m w with
  | (.ok a, w1) => f a w1
  | (.error e, w1) => (.error e, w1)

instance {σ : Type} : Monad (Prog σ) where
  pure a := fun w => (.ok a, w)
  bind := Prog.bind

/-- A `throw`. -/
def raise {σ α : Type} (e : Exn) : Prog σ α := fun w => (.error e, w)

/-- An output to `cout`. -/
def print {σ : Type} (o : Out) : Prog σ Unit := fun w =>
  (.ok (), { w with cout := w.cout ++ [o] })

/-- A backend call that reads the server. -/
def query {σ α : Type} (c : Call) (f : σ → α) : Prog σ α := fun w =>
  (.ok (f w.server), { w with calls := w.calls ++ [c] })

/-- A backend call that reads the server and may throw. -/
def lookup {σ α : Type} (c : Call) (f : σ → Except String α) : Prog σ α := fun w =>
  match f w.server with
  | .ok a => (.ok a, { w with calls := w.calls ++ [c] })
  | .error e => (.error (.backend e), { w with calls := w.calls ++ [c] })

/-- A backend call that changes the server. -/
def mutate {σ : Type} (c : Call) (f : σ → σ) : Prog σ Unit := fun w =>
  (.ok (), { w with server := f w.server, calls := w.calls ++ [c] })

/-- The construction `Pulseaudio pulse("pamixer")` (pamixer.cc:130). -/
def connect {σ : Type} (P : Pulseaudio σ) (client : String) : Prog σ Unit := fun w =>
  match P.connect w.server client with
  | .ok s => (.ok (), { w with server := s, calls := w.calls ++ [.connect client] })
  | .error e => (.error (.backend e), { w with calls := w.calls ++ [.connect client] })

/-! ## Definitions: conflicting_options (pamixer.cc:43-49) -/

/-- The text of the `logic_error` thrown for a pair of options. -/
def conflict_message (opt1 opt2 : Opt) : String :=
  "Conflicting options '" ++ opt1.name ++ "' and '" ++ opt2.name ++ "'."

/-- The function `void conflicting_options(vm, opt1, opt2)`. -/
def conflicting_options {σ : Type} (vm : variables_map) (opt1 opt2 : Opt) : Prog σ Unit :=
  if vm.given opt1 && vm.given opt2 then
    raise (.logic_error (conflict_message opt1 opt2))
  else pure ()

/-! ## Definitions: get_selected_device (pamixer.cc:51-61) -/

/-- The function `Device get_selected_device(pulse, vm, sink_name, source_name)`. -/
def get_selected_device {σ : Type} (P : Pulseaudio σ) (vm : variables_map)
    (sink_name source_name : String) : Prog σ Device := do
  let device ← query .get_default_sink P.get_default_sink
  if vm.count .sink ≠ 0 then
    lookup (.get_sink sink_name) (fun s => P.get_sink s sink_name)
  else if vm.count .default_source ≠ 0 then
    query .get_default_source P.get_default_source
  else if vm.count .source ≠ 0 then
    lookup (.get_source source_name) (fun s => P.get_source s source_name)
  else pure device

/-! ## Definitions: main (pamixer.cc:81-201) -/

/-- Lines 134-145 of `main`: a negative `value` is replaced by 0, then the new
volume is computed; `none` when the conversion to `pa_volume_t` is undefined. -/
def new_value (pow : Dbl → Dbl → Dbl) (vm : variables_map) (device : Device)
    (gamma : Dbl) (value : ℤ) : Option ℕ :=
  let value := if value < 0 then 0 else value
  if vm.count .set_volume ≠ 0 then
    to_pa_volume_t (fround (fdiv (fmul (of_int value) (of_int PA_VOLUME_NORM)) (.fin 100)))
  else if vm.count .increase ≠ 0 then
    gammaCorrection pow device.volume_avg gamma value
  else if vm.count .decrease ≠ 0 then
    gammaCorrection pow device.volume_avg gamma (-value)
  else some 0

/-- The `pa_volume_t` that the run goes on with after a conversion: its value
where it is defined, else an unspecified 32-bit value. -/
def converted (undef : ℕ) (r : Option ℕ) : ℕ := r.getD (undef % 2 ^ 32)

/-- Lines 147-149 of `main`: the boost clamp. -/
def boost_clamp (vm : variables_map) (new_value : ℕ) : ℕ :=
  if vm.count .allow_boost = 0 ∧ new_value > PA_VOLUME_NORM then PA_VOLUME_NORM else new_value

/-- Lines 133-153 of `main`: the volume mutation and the second reading of the
device. -/
def main_volume {σ : Type} (P : Pulseaudio σ) (undef : ℕ) (pow : Dbl → Dbl → Dbl)
    (vm : variables_map) (sink_name source_name : String) (value : ℤ) (gamma : Dbl)
    (device : Device) : Prog σ Device :=
  if vm.count .set_volume ≠ 0 ∨ vm.count .increase ≠ 0 ∨ vm.count .decrease ≠ 0 then do
    let submitted := boost_clamp vm (converted undef (new_value pow vm device gamma value))
    mutate (.set_volume device submitted) (fun s => P.set_volume s device submitted)
    get_selected_device P vm sink_name source_name
  else pure device

/-- The call `pulse.set_mute(device, mute)`. -/
def set_mute {σ : Type} (P : Pulseaudio σ) (device : Device) (mute : Bool) : Prog σ Unit :=
  mutate (.set_mute device mute) (fun s => P.set_mute s device mute)

/-- Lines 155-161 of `main`: the mute mutation. -/
def main_mute {σ : Type} (P : Pulseaudio σ) (vm : variables_map) (device : Device) :
    Prog σ Unit :=
  if vm.count .toggle_mute ≠ 0 then set_mute P device (!device.mute)
  else if vm.count .mute ≠ 0 then set_mute P device true
  else if vm.count .unmute ≠ 0 then set_mute P device false
  else pure ()

/-- One line of a device listing (pamixer.cc:176, 184). -/
def device_line (d : Device) : String :=
  toString d.index ++ " \"" ++ d.name ++ "\" \"" ++ d.description ++ "\""

/-- The loop that prints a list of devices (pamixer.cc:175-177, 183-185). -/
def print_devices {σ : Type} : List Device → Prog σ Unit
  | [] => pure ()
  | d :: ds => do
    print (.text (device_line d))
    print_devices ds

/-- Lines 163-189 of `main`: the queries and the exit code. -/
def main_query {σ : Type} (P : Pulseaudio σ) (vm : variables_map) (device : Device) :
    Prog σ ℤ :=
  if vm.count .get_volume ≠ 0 then do
    print (.text (toString device.volume_percent))
    pure (if device.volume_percent > 0 then 0 else 1)
  else if vm.count .get_mute ≠ 0 then do
    print (.text (if device.mute then "true" else "false"))
    pure (if device.mute then 0 else 1)
  else do
    if vm.count .list_sinks ≠ 0 then do
      let sinks ← query .get_sinks P.get_sinks
      print (.text "Sinks:")
      print_devices sinks
    if vm.count .list_sources ≠ 0 then do
      let sources ← query .get_sources P.get_sources
      print (.text "Sources:")
      print_devices sources
    pure 0

/-- Lines 118-128 of `main`: the eleven checks for conflicting options. -/
def main_conflicts {σ : Type} (vm : variables_map) : Prog σ Unit := do
  conflicting_options vm .set_volume .increase
  conflicting_options vm .set_volume .decrease
  conflicting_options vm .decrease .increase
  conflicting_options vm .toggle_mute .mute
  conflicting_options vm .toggle_mute .unmute
  conflicting_options vm .unmute .mute
  conflicting_options vm .sink .source
  conflicting_options vm .sink .default_source
  conflicting_options vm .get_volume .get_mute
  conflicting_options vm .get_volume .list_sinks
  conflicting_options vm .get_volume .list_sources

/-- The function `int main(argc, argv)` from the parsed options on: `vm` and the
variables `sink_name`, `source_name`, `value`, `gamma` that `po::notify` has
filled.  The result is the exit code, or what ended the run early.  `undef` is
the `pa_volume_t` that an undefined conversion leaves in `new_value`. -/
def main {σ : Type} (P : Pulseaudio σ) (undef : ℕ) (pow : Dbl → Dbl → Dbl)
    (vm : variables_map) (sink_name source_name : String) (value : ℤ) (gamma : Dbl) :
    Prog σ ℤ :=
  if vm.count .help ≠ 0 ∨ vm.size < 2 then do
    print .usage
    pure 0
  else do
    main_conflicts vm
    connect P "pamixer"
    let device ← get_selected_device P vm sink_name source_name
    let device ← main_volume P undef pow vm sink_name source_name value gamma device
    main_mute P vm device
    main_query P vm device

/-- Lines 130-131 of `main`: the connection and the first reading of the device. -/
def main_lookup {σ : Type} (P : Pulseaudio σ) (vm : variables_map)
    (sink_name source_name : String) : Prog σ Device := do
  connect P "pamixer"
  get_selected_device P vm sink_name source_name

/-- Lines 130-153 of `main`: the connection and the readings of the device, up
to the snapshot that the mute step and the query step use. -/
def main_device {σ : Type} (P : Pulseaudio σ) (undef : ℕ) (pow : Dbl → Dbl → Dbl)
    (vm : variables_map) (sink_name source_name : String) (value : ℤ) (gamma : Dbl) :
    Prog σ Device := do
  let device ← main_lookup P vm sink_name source_name
  main_volume P undef pow vm sink_name source_name value gamma device

/-! ## Definitions: what a step leaves untouched -/

/-- Whether a call is a `set_volume`. -/
def Call.is_set_volume : Call → Bool
  | .set_volume _ _ => true
  | _ => false

/-- A step that only adds calls to those received, none of them a `set_volume`. -/
def no_set_volume {σ α : Type} (m : Prog σ α) : Prop :=
  ∀ w, ∃ ext, (m w).2.calls = w.calls ++ ext ∧ ∀ c ∈ ext, c.is_set_volume = false

/-- A step that writes nothing to `cout`. -/
def no_output {σ α : Type} (m : Prog σ α) : Prop := ∀ w, (m w).2.cout = w.cout

/-- A step that leaves the server as it is. -/
def keeps_server {σ α : Type} (m : Prog σ α) : Prop := ∀ w, (m w).2.server = w.server
/-! ## Definitions: a mock backend -/

/-- Modelled from the spec: the state of a backend with one sink and one source,
which are also the defaults. -/
structure Mock where
  sink : Device
  source : Device
  deriving DecidableEq, Repr

/-- Modelled from the spec: `volume_percent` as a function of `volume_avg`, the
volume rescaled to a whole percentage. -/
def percent_of (volume_avg : ℕ) : ℤ :=
  ((volume_avg * 100 + PA_VOLUME_NORM / 2) / PA_VOLUME_NORM : ℕ)

/-- A device after its volume was set. -/
def Device.with_volume (d : Device) (v : ℕ) : Device :=
  { d with volume_avg := v, volume_percent := percent_of v }

/-- Modelled from the spec: a backend over `Mock` that follows section 6; a
mutation addresses the device by its index and is seen by later lookups. -/
def mock : Pulseaudio Mock where
  connect s _ := .ok s
  get_default_sink s := s.sink
  get_default_source s := s.source
  get_sink s n := if n = s.sink.name then .ok s.sink else .error "sink not found"
  get_source s n := if n = s.source.name then .ok s.source else .error "source not found"
  get_sinks s := [s.sink]
  get_sources s := [s.source]
  set_volume s d v :=
    if d.index = s.sink.index then { s with sink := s.sink.with_volume v }
    else if d.index = s.source.index then { s with source := s.source.with_volume v }
    else s
  set_mute s d m :=
    if d.index = s.sink.index then { s with sink := { s.sink with mute := m } }
    else if d.index = s.source.index then { s with source := { s.source with mute := m } }
    else s

/-- A sink at 50%, not muted. -/
def speakers : Device :=
  { index := 0, name := "alsa_output.pci", description := "Built-in Audio",
    volume_avg := 32768, volume_percent := 50, mute := false }

/-- A source at 100%, not muted. -/
def microphone : Device :=
  { index := 1, name := "alsa_input.pci", description := "Built-in Microphone",
    volume_avg := 65536, volume_percent := 100, mute := false }

/-- The world before a run on the mock backend: no call received, nothing
written. -/
def world0 : World Mock := { server := ⟨speakers, microphone⟩, calls := [], cout := [] }

/-- A sink at 150%, not muted. -/
def loud : Device :=
  { index := 0, name := "alsa_output.pci", description := "Built-in Audio",
    volume_avg := 98304, volume_percent := 150, mute := false }

/-- The world before a run on the mock backend whose sink is at 150%. -/
def world_loud : World Mock := { server := ⟨loud, microphone⟩, calls := [], cout := [] }

/-- A sink at 50%, muted. -/
def muted : Device := { speakers with mute := true }

/-- The world before a run on the mock backend whose sink is muted. -/
def world_muted : World Mock := { server := ⟨muted, microphone⟩, calls := [], cout := [] }
/-! ## Lemmas: rounding to binary64 -/

theorem roundEven_sub_le (q : ℚ) : |(roundEven q : ℚ) - q| ≤ 1 / 2 := by
  have h1 := Int.floor_le q
  have h2 := Int.lt_floor_add_one q
  unfold roundEven
  rw [abs_le]
  split_ifs with ha hb hc
  · constructor <;> linarith
  · push_cast; constructor <;> linarith
  · constructor <;> linarith
  · push_cast; constructor <;> linarith

theorem roundEven_intCast (n : ℤ) : roundEven (n : ℚ) = n := by
  unfold roundEven
  simp

theorem roundEven_mono {a b : ℚ} (h : a ≤ b) : roundEven a ≤ roundEven b := by
  by_contra hlt
  push_neg at hlt
  have h1 : (roundEven b : ℚ) + 1 ≤ roundEven a := by exact_mod_cast hlt
  have ha := abs_le.mp (roundEven_sub_le a)
  have hb := abs_le.mp (roundEven_sub_le b)
  have hab : a = b := le_antisymm h (by linarith)
  rw [hab] at hlt
  exact lt_irrefl _ hlt

theorem ulp_pos (x : ℚ) : 0 < ulp x := by
  unfold ulp; positivity

theorem rnd_zero : rnd 0 = 0 := by
  simp [rnd, roundEven]

theorem rnd_sub_le (x : ℚ) : |rnd x - x| ≤ ulp x / 2 := by
  have hu := ulp_pos x
  have h := roundEven_sub_le (x / ulp x)
  have : rnd x - x = ((roundEven (x / ulp x) : ℚ) - x / ulp x) * ulp x := by
    unfold rnd; field_simp
  rw [this, abs_mul, abs_of_pos hu]
  nlinarith

theorem binade_le {x : ℚ} (hx : x ≠ 0) : (2 : ℚ) ^ binade x ≤ |x| := by
  have := Int.zpow_log_le_self (b := 2) (r := |x|) (by norm_num) (abs_pos.mpr hx)
  simpa [binade] using this

theorem lt_binade (x : ℚ) : |x| < (2 : ℚ) ^ (binade x + 1) := by
  have := Int.lt_zpow_succ_log_self (b := 2) (by norm_num) |x|
  simpa [binade] using this

theorem ulp_eq (x : ℚ) : ulp x = (2 : ℚ) ^ qexp x := rfl

theorem qexp_le_of_lt {x : ℚ} {k : ℤ} (hx : x ≠ 0) (hk : -1074 ≤ k)
    (h : |x| < (2 : ℚ) ^ (k + 53)) : qexp x ≤ k := by
  have hb : binade x < k + 53 := by
    have := (Int.lt_zpow_iff_log_lt (b := 2) (by norm_num) (abs_pos.mpr hx)).mp
      (by simpa using h)
    simpa [binade] using this
  unfold qexp
  exact max_le (by omega) hk

theorem rnd_of_int_mul {x : ℚ} (n : ℤ) (h : x = n * ulp x) : rnd x = x := by
  have hu := ulp_pos x
  unfold rnd
  have : x / ulp x = (n : ℚ) := by
    rw [div_eq_iff hu.ne']
    exact h
  rw [this, roundEven_intCast]
  exact h.symm

theorem rnd_exact (m k : ℤ) (hm : |m| < 2 ^ 53) (hk : -1074 ≤ k) :
    rnd (m * (2 : ℚ) ^ k) = m * (2 : ℚ) ^ k := by
  by_cases hm0 : m = 0
  · simp [hm0, rnd_zero]
  set x : ℚ := m * (2 : ℚ) ^ k with hx
  have h2k : (0 : ℚ) < 2 ^ k := by positivity
  have hx0 : x ≠ 0 := by
    rw [hx]; exact mul_ne_zero (by exact_mod_cast hm0) h2k.ne'
  have habs : |x| < (2 : ℚ) ^ (k + 53) := by
    rw [hx, abs_mul, abs_of_pos h2k, zpow_add₀ (by norm_num : (2 : ℚ) ≠ 0), mul_comm]
    have : ((|m| : ℤ) : ℚ) < 2 ^ 53 := by exact_mod_cast hm
    have h53 : ((2 : ℚ) ^ (53 : ℤ)) = 2 ^ 53 := by norm_cast
    rw [h53, ← Int.cast_abs]
    exact mul_lt_mul_of_pos_left this h2k
  have hq := qexp_le_of_lt hx0 hk habs
  obtain ⟨n, hn⟩ := Int.eq_ofNat_of_zero_le (sub_nonneg.mpr hq)
  apply rnd_of_int_mul (m * 2 ^ n)
  rw [ulp_eq]
  have hk' : k = qexp x + n := by omega
  rw [hx]
  nth_rewrite 1 [hk']
  rw [zpow_add₀ (by norm_num : (2 : ℚ) ≠ 0)]
  push_cast
  rw [zpow_natCast]
  ring

theorem rnd_intCast (n : ℤ) (h : |n| < 2 ^ 53) : rnd (n : ℚ) = n := by
  simpa using rnd_exact n 0 h (by norm_num)

theorem rnd_le_of_le_grid {x t : ℚ} (N : ℤ) (ht : t = N * ulp x) (h : x ≤ t) : rnd x ≤ t := by
  have hu := ulp_pos x
  have h1 : x / ulp x ≤ (N : ℚ) := by
    rw [div_le_iff₀ hu]; rw [← ht]; exact h
  have h2 := roundEven_mono h1
  rw [roundEven_intCast] at h2
  have h3 : (roundEven (x / ulp x) : ℚ) ≤ N := by exact_mod_cast h2
  rw [ht]
  unfold rnd
  exact mul_le_mul_of_nonneg_right h3 hu.le

theorem grid_le_rnd_of_le {x t : ℚ} (N : ℤ) (ht : t = N * ulp x) (h : t ≤ x) : t ≤ rnd x := by
  have hu := ulp_pos x
  have h1 : (N : ℚ) ≤ x / ulp x := by
    rw [le_div_iff₀ hu]; rw [← ht]; exact h
  have h2 := roundEven_mono h1
  rw [roundEven_intCast] at h2
  have h3 : (N : ℚ) ≤ roundEven (x / ulp x) := by exact_mod_cast h2
  rw [ht]
  unfold rnd
  exact mul_le_mul_of_nonneg_right h3 hu.le

theorem rnd_nonneg {x : ℚ} (h : 0 ≤ x) : 0 ≤ rnd x :=
  grid_le_rnd_of_le 0 (by simp) h

theorem rnd_nonpos {x : ℚ} (h : x ≤ 0) : rnd x ≤ 0 :=
  rnd_le_of_le_grid 0 (by simp) h

theorem zpow_grid {a e : ℤ} (h : e ≤ a) : ∃ N : ℤ, (2 : ℚ) ^ a = N * (2 : ℚ) ^ e := by
  obtain ⟨n, hn⟩ := Int.eq_ofNat_of_zero_le (sub_nonneg.mpr h)
  refine ⟨2 ^ n, ?_⟩
  have ha : a = n + e := by omega
  rw [ha, zpow_add₀ (by norm_num : (2 : ℚ) ≠ 0), zpow_natCast]
  push_cast
  ring

theorem binade_lt_of_qexp_lt {x y : ℚ} (h : qexp x < qexp y) :
    binade x < binade y ∧ qexp y = binade y - 52 := by
  unfold qexp at *
  omega

theorem abs_lt_of_binade_lt {x y : ℚ} (hy : y ≠ 0) (h : binade x < binade y) :
    |x| < (2 : ℚ) ^ binade y ∧ (2 : ℚ) ^ binade y ≤ |y| := by
  refine ⟨lt_of_lt_of_le (lt_binade x) ?_, binade_le hy⟩
  exact zpow_le_zpow_right₀ (by norm_num) (by omega)

theorem rnd_mono {x y : ℚ} (h : x ≤ y) : rnd x ≤ rnd y := by
  by_cases hx0 : x = 0
  · rw [hx0, rnd_zero]; exact rnd_nonneg (hx0 ▸ h)
  by_cases hy0 : y = 0
  · rw [hy0, rnd_zero]; exact rnd_nonpos (hy0 ▸ h)
  rcases lt_trichotomy (qexp x) (qexp y) with hq | hq | hq
  · obtain ⟨hb, hqy⟩ := binade_lt_of_qexp_lt hq
    obtain ⟨h1, h2⟩ := abs_lt_of_binade_lt hy0 hb
    have hypos : 0 < y := by
      by_contra hneg
      push_neg at hneg
      have hxneg : x ≤ 0 := le_trans h hneg
      rw [abs_of_nonpos hneg] at h2
      rw [abs_of_nonpos hxneg] at h1
      linarith
    rw [abs_of_pos hypos] at h2
    have hxt : x ≤ (2 : ℚ) ^ binade y := le_trans (le_abs_self x) h1.le
    obtain ⟨N1, hN1⟩ := zpow_grid (a := binade y) (e := qexp x) (by unfold qexp at *; omega)
    obtain ⟨N2, hN2⟩ := zpow_grid (a := binade y) (e := qexp y) (by omega)
    exact le_trans (rnd_le_of_le_grid N1 hN1 hxt) (grid_le_rnd_of_le N2 hN2 h2)
  · have hu : ulp x = ulp y := by rw [ulp_eq, ulp_eq, hq]
    unfold rnd
    rw [hu]
    have hu' := ulp_pos y
    have h1 : x / ulp y ≤ y / ulp y := div_le_div_of_nonneg_right h hu'.le
    have h2 : (roundEven (x / ulp y) : ℚ) ≤ roundEven (y / ulp y) := by
      exact_mod_cast roundEven_mono h1
    exact mul_le_mul_of_nonneg_right h2 hu'.le
  · obtain ⟨hb, hqx⟩ := binade_lt_of_qexp_lt hq
    obtain ⟨h1, h2⟩ := abs_lt_of_binade_lt hx0 hb
    have hxneg : x < 0 := by
      by_contra hpos
      push_neg at hpos
      have hypos : 0 ≤ y := le_trans hpos h
      rw [abs_of_nonneg hpos] at h2
      rw [abs_of_nonneg hypos] at h1
      linarith
    rw [abs_of_neg hxneg] at h2
    have hty : -(2 : ℚ) ^ binade x ≤ y := by
      have := neg_abs_le y
      linarith
    obtain ⟨N1, hN1⟩ := zpow_grid (a := binade x) (e := qexp x) (by omega)
    obtain ⟨N2, hN2⟩ := zpow_grid (a := binade x) (e := qexp y) (by unfold qexp at *; omega)
    have hx' : x ≤ -(2 : ℚ) ^ binade x := by linarith
    exact le_trans
      (rnd_le_of_le_grid (t := -(2 : ℚ) ^ binade x) (-N1) (by rw [hN1, ulp_eq]; push_cast; ring) hx')
      (grid_le_rnd_of_le (t := -(2 : ℚ) ^ binade x) (-N2) (by rw [hN2, ulp_eq]; push_cast; ring) hty)

theorem rnd_error (x : ℚ) : |rnd x - x| ≤ |x| * 2 ^ (-53 : ℤ) + 2 ^ (-1075 : ℤ) := by
  by_cases hx0 : x = 0
  · rw [hx0, rnd_zero]; simp; positivity
  have h := rnd_sub_le x
  have hb := binade_le hx0
  have hu : ulp x ≤ |x| * 2 ^ (-52 : ℤ) + 2 ^ (-1074 : ℤ) := by
    rw [ulp_eq]
    unfold qexp
    rcases le_total (binade x - 52) (-1074) with hc | hc
    · rw [max_eq_right hc]
      have : (0 : ℚ) ≤ |x| * 2 ^ (-52 : ℤ) := by positivity
      linarith
    · rw [max_eq_left hc, sub_eq_add_neg, zpow_add₀ (by norm_num : (2 : ℚ) ≠ 0)]
      have h52 : (0 : ℚ) < 2 ^ (-52 : ℤ) := by positivity
      have h1074 : (0 : ℚ) < 2 ^ (-1074 : ℤ) := by positivity
      nlinarith
  have e1 : (2 : ℚ) ^ (-53 : ℤ) = 2 ^ (-52 : ℤ) / 2 := by
    rw [show (-53 : ℤ) = -52 + -1 by norm_num, zpow_add₀ (by norm_num : (2 : ℚ) ≠ 0)]
    norm_num
  have e2 : (2 : ℚ) ^ (-1075 : ℤ) = 2 ^ (-1074 : ℤ) / 2 := by
    rw [show (-1075 : ℤ) = -1074 + -1 by norm_num, zpow_add₀ (by norm_num : (2 : ℚ) ≠ 0)]
    norm_num
  rw [e1, e2, mul_div_assoc']
  generalize |x| * (2 : ℚ) ^ (-52 : ℤ) = P at hu ⊢
  generalize (2 : ℚ) ^ (-1074 : ℤ) = Q at hu ⊢
  linarith

theorem rnd_abs_le_zpow {x : ℚ} {a : ℤ} (ha : qexp x ≤ a) (h : |x| ≤ (2 : ℚ) ^ a) :
    |rnd x| ≤ (2 : ℚ) ^ a := by
  obtain ⟨N, hN⟩ := zpow_grid ha
  have hx := abs_le.mp h
  rw [abs_le]
  constructor
  · exact grid_le_rnd_of_le (t := -(2 : ℚ) ^ a) (-N) (by rw [hN, ulp_eq]; push_cast; ring) hx.1
  · exact rnd_le_of_le_grid N (by rw [hN, ulp_eq]) hx.2

theorem rnd_idem (x : ℚ) : rnd (rnd x) = rnd x := by
  have hq1 : -1074 ≤ qexp x := le_max_right _ _
  have hq2 : binade x + 1 ≤ qexp x + 53 := by unfold qexp; omega
  have hq3 : qexp x ≤ qexp x + 53 := by omega
  have hle : |x| ≤ (2 : ℚ) ^ (qexp x + 53) :=
    le_trans (lt_binade x).le (zpow_le_zpow_right₀ (by norm_num) hq2)
  have hr := rnd_abs_le_zpow hq3 hle
  have h2 : (0 : ℚ) < 2 ^ qexp x := by positivity
  set n : ℤ := roundEven (x / ulp x) with hn
  have hrx : rnd x = n * (2 : ℚ) ^ qexp x := rfl
  have hnle : |n| ≤ 2 ^ 53 := by
    rw [hrx, abs_mul, abs_of_pos h2, zpow_add₀ (by norm_num : (2 : ℚ) ≠ 0), mul_comm] at hr
    have h3 := le_of_mul_le_mul_left hr h2
    have h53 : ((2 : ℚ) ^ (53 : ℤ)) = 2 ^ 53 := by norm_cast
    rw [h53, ← Int.cast_abs] at h3
    exact_mod_cast h3
  rcases lt_or_eq_of_le hnle with hlt | heq
  · rw [hrx]; exact rnd_exact n (qexp x) hlt hq1
  · have hcase : n = 2 ^ 53 ∨ n = -2 ^ 53 := by
      rcases abs_cases n with ⟨h1, _⟩ | ⟨h1, _⟩ <;> [left; right] <;> omega
    have key : ∀ s : ℤ, |s| < 2 ^ 53 → n = 2 * s → rnd (rnd x) = rnd x := by
      intro s hs hns
      have e : rnd x = s * (2 : ℚ) ^ (qexp x + 1) := by
        rw [hrx, hns, zpow_add₀ (by norm_num : (2 : ℚ) ≠ 0)]
        push_cast
        ring
      rw [e]
      exact rnd_exact s (qexp x + 1) hs (by omega)
    rcases hcase with h1 | h1
    · exact key (2 ^ 52) (by norm_num) (by rw [h1]; norm_num)
    · exact key (-2 ^ 52) (by norm_num) (by rw [h1]; norm_num)

theorem c_round_of_nonneg {x : ℚ} (h : 0 ≤ x) : c_round x = ⌊x + 1 / 2⌋ := by
  unfold c_round; rw [if_pos h]

theorem c_round_nonneg {x : ℚ} (h : 0 ≤ x) : 0 ≤ c_round x := by
  rw [c_round_of_nonneg h]
  exact Int.floor_nonneg.mpr (by linarith)

theorem c_round_intCast (n : ℤ) : c_round (n : ℚ) = n := by
  unfold c_round
  split_ifs with h
  · rw [Int.floor_eq_iff]; constructor <;> linarith
  · rw [neg_eq_iff_eq_neg, Int.floor_eq_iff]; constructor <;> push_cast <;> linarith

theorem c_round_eq_of_close (k : ℤ) (z : ℚ) (hk : 0 ≤ k) (hz : 0 ≤ z)
    (h : |z - (k : ℚ) / 25| < 1 / 50) : c_round z = c_round ((k : ℚ) / 25) := by
  have hk' : (0 : ℚ) ≤ (k : ℚ) / 25 := by positivity
  rw [c_round_of_nonneg hz, c_round_of_nonneg hk']
  set n : ℤ := ⌊(k : ℚ) / 25 + 1 / 2⌋ with hn
  have h1 : (n : ℚ) ≤ (k : ℚ) / 25 + 1 / 2 := Int.floor_le _
  have h2 : (k : ℚ) / 25 + 1 / 2 < n + 1 := Int.lt_floor_add_one _
  have h3 : 50 * n ≤ 2 * k + 25 := by
    have : (50 : ℚ) * n ≤ 2 * k + 25 := by linarith
    exact_mod_cast this
  have h4 : 2 * k + 25 < 50 * n + 50 := by
    have : (2 : ℚ) * k + 25 < 50 * n + 50 := by linarith
    exact_mod_cast this
  have h5 : 50 * n - 24 ≤ 2 * k := by omega
  have h6 : 2 * k ≤ 50 * n + 24 := by omega
  have h5' : (50 : ℚ) * n - 24 ≤ 2 * k := by exact_mod_cast h5
  have h6' : (2 : ℚ) * k ≤ 50 * n + 24 := by exact_mod_cast h6
  have hz' := abs_lt.mp h
  rw [Int.floor_eq_iff]
  constructor <;> linarith [hz'.1, hz'.2]

theorem rnd_abs_le_two_pow {x : ℚ} {a : ℤ} (ha : -1074 ≤ a) (h : |x| ≤ (2 : ℚ) ^ a) :
    |rnd x| ≤ (2 : ℚ) ^ a := by
  by_cases hx : x = 0
  · rw [hx, rnd_zero, abs_zero]; positivity
  apply rnd_abs_le_zpow _ h
  apply qexp_le_of_lt hx ha
  exact lt_of_le_of_lt h (zpow_lt_zpow_right₀ (by norm_num) (by omega))

theorem is_double_zero : is_double 0 := ⟨rnd_zero, by unfold DBL_MAX; norm_num⟩

theorem c_round_mono_of_nonneg {x y : ℚ} (hx : 0 ≤ x) (h : x ≤ y) : c_round x ≤ c_round y := by
  rw [c_round_of_nonneg hx, c_round_of_nonneg (le_trans hx h)]
  exact Int.floor_mono (by linarith)

theorem c_round_nat (n : ℕ) : c_round (n : ℚ) = n := by
  simpa using c_round_intCast (n : ℤ)

theorem is_double_int {n : ℤ} (h : |n| < 2 ^ 53) : is_double (n : ℚ) := by
  refine ⟨rnd_intCast n h, ?_⟩
  have : ((|n| : ℤ) : ℚ) < 2 ^ 53 := by exact_mod_cast h
  rw [Int.cast_abs] at this
  refine le_trans this.le ?_
  unfold DBL_MAX; norm_num

theorem is_double_half : is_double (1 / 2) := by
  have h := rnd_exact 1 (-1) (by norm_num) (by norm_num)
  have e : ((1 : ℤ) : ℚ) * 2 ^ (-1 : ℤ) = 1 / 2 := by norm_num
  rw [e] at h
  exact ⟨h, by unfold DBL_MAX; rw [abs_of_pos (by norm_num)]; norm_num⟩

theorem is_double_65536 : is_double 65536 := by
  simpa using is_double_int (n := 65536) (by norm_num)

theorem is_double_one : is_double 1 := by
  simpa using is_double_int (n := 1) (by norm_num)

theorem is_double_two : is_double 2 := by
  simpa using is_double_int (n := 2) (by norm_num)

theorem is_double_rnd {x : ℚ} (h : |rnd x| ≤ DBL_MAX) : is_double (rnd x) :=
  ⟨rnd_idem x, h⟩

theorem two_pow_le_DBL_MAX {a : ℤ} (ha : a ≤ 1023) : (2 : ℚ) ^ a ≤ DBL_MAX := by
  refine le_trans (zpow_le_zpow_right₀ (by norm_num) ha) ?_
  unfold DBL_MAX
  norm_num

theorem rnd_le_DBL_MAX {x : ℚ} {a : ℤ} (ha : -1074 ≤ a) (ha' : a ≤ 1023)
    (h : |x| ≤ (2 : ℚ) ^ a) : |rnd x| ≤ DBL_MAX :=
  le_trans (rnd_abs_le_two_pow ha h) (two_pow_le_DBL_MAX ha')

theorem rnd_of_tiny {x : ℚ} (h0 : 0 ≤ x) (h : x < 2 ^ (-1075 : ℤ)) : rnd x = 0 := by
  have hu := ulp_pos x
  have hq : (2 : ℚ) ^ (-1074 : ℤ) ≤ ulp x :=
    zpow_le_zpow_right₀ (by norm_num) (le_max_right _ _)
  have e : (2 : ℚ) ^ (-1075 : ℤ) = 2 ^ (-1074 : ℤ) / 2 := by
    rw [show (-1075 : ℤ) = -1074 + -1 by norm_num, zpow_add₀ (by norm_num : (2 : ℚ) ≠ 0)]
    norm_num
  have hlt : x / ulp x < 1 / 2 := by
    rw [div_lt_iff₀ hu]
    rw [e] at h
    generalize (2 : ℚ) ^ (-1074 : ℤ) = Q at h hq
    linarith
  have hge : 0 ≤ x / ulp x := div_nonneg h0 hu.le
  have hfloor : ⌊x / ulp x⌋ = 0 := by
    rw [Int.floor_eq_iff]
    constructor
    · simpa using hge
    · simp only [Int.cast_zero, zero_add]; linarith
  unfold rnd roundEven
  rw [hfloor]
  simp only [Int.cast_zero, sub_zero, if_pos hlt, zero_mul]

/-! ## Lemmas: the operations on doubles -/

theorem round_to_finite {x : ℚ} (s : Bool) (h : |rnd x| ≤ DBL_MAX) :
    (round_to x s).is_finite = true ∧ (round_to x s).val = rnd x := by
  unfold round_to
  rw [if_neg (not_lt.mpr h)]
  by_cases h0 : rnd x = 0
  · rw [if_pos h0, h0]
    unfold signed_zero
    split_ifs <;> exact ⟨rfl, rfl⟩
  · rw [if_neg h0]
    exact ⟨rfl, rfl⟩

theorem round_to_of_ne_zero {x : ℚ} (s : Bool) (h : |rnd x| ≤ DBL_MAX) (h0 : rnd x ≠ 0) :
    round_to x s = .fin (rnd x) := by
  unfold round_to
  rw [if_neg (not_lt.mpr h), if_neg h0]

theorem round_to_of_nonneg {x : ℚ} (h : |rnd x| ≤ DBL_MAX) (h0 : 0 ≤ x) :
    round_to x false = .fin (rnd x) := by
  unfold round_to
  rw [if_neg (not_lt.mpr h)]
  by_cases hz : rnd x = 0
  · rw [if_pos hz, hz]
    simp [signed_zero, not_lt.mpr h0]
  · rw [if_neg hz]

theorem round_to_exact {x c : ℚ} (s : Bool) (hc : x = c) (hd : is_double c)
    (h0 : c ≠ 0 ∨ s = false) : round_to x s = .fin c := by
  subst hc
  have hb : |rnd x| ≤ DBL_MAX := by rw [hd.1]; exact hd.2
  by_cases hz : x = 0
  · subst hz
    rcases h0 with h0 | h0
    · exact absurd rfl h0
    · subst h0
      rw [round_to_of_nonneg hb (le_refl _), rnd_zero]
  · have h := round_to_of_ne_zero s hb (by rw [hd.1]; exact hz)
    rw [hd.1] at h
    exact h

theorem of_int_eq {n : ℤ} (h : |n| < 2 ^ 53) : of_int n = .fin n :=
  round_to_exact false rfl (is_double_int h) (Or.inr rfl)

theorem of_int_norm : of_int (PA_VOLUME_NORM : ℕ) = .fin 65536 := by
  have := of_int_eq (n := ((PA_VOLUME_NORM : ℕ) : ℤ)) (by unfold PA_VOLUME_NORM; norm_num)
  rw [this]
  unfold PA_VOLUME_NORM
  norm_num

theorem of_int_volume {v : ℕ} (hv : v < 2 ^ 32) : of_int (v : ℤ) = .fin v := by
  have := of_int_eq (n := (v : ℤ)) (by rw [abs_lt]; constructor <;> omega)
  simpa using this

theorem fadd_of_finite {a b : Dbl} (ha : a.is_finite = true) (hb : b.is_finite = true) :
    fadd a b = round_to (a.val + b.val) (a.sign && b.sign) := by
  cases a <;> cases b <;> simp_all [fadd, Dbl.is_finite, Dbl.is_inf]

theorem fmul_of_finite {a b : Dbl} (ha : a.is_finite = true) (hb : b.is_finite = true) :
    fmul a b = round_to (a.val * b.val) (xor a.sign b.sign) := by
  cases a <;> cases b <;> simp_all [fmul, Dbl.is_finite, Dbl.is_inf]

theorem fdiv_fin (a : Dbl) (ha : a.is_finite = true) {y : ℚ} (hy : y ≠ 0) :
    fdiv a (.fin y) = round_to (a.val / y) (xor a.sign (decide (y < 0))) := by
  cases a <;> simp_all [fdiv, Dbl.is_finite, Dbl.is_inf, Dbl.is_zero, Dbl.val, Dbl.sign]

theorem fdiv_exact {a b c : ℚ} (hb : b ≠ 0) (hc : a / b = c) (hd : is_double c)
    (h0 : c ≠ 0 ∨ (0 ≤ a ∧ 0 < b)) : fdiv (.fin a) (.fin b) = .fin c := by
  rw [fdiv_fin (.fin a) rfl hb]
  apply round_to_exact _ hc hd
  rcases h0 with h0 | ⟨h1, h2⟩
  · exact Or.inl h0
  · right
    simp [Dbl.sign, not_lt.mpr h1, not_lt.mpr h2.le]

theorem fmul_exact {a b c : ℚ} (hc : a * b = c) (hd : is_double c)
    (h0 : c ≠ 0 ∨ (0 ≤ a ∧ 0 ≤ b)) : fmul (.fin a) (.fin b) = .fin c := by
  rw [fmul_of_finite (a := .fin a) (b := .fin b) rfl rfl]
  apply round_to_exact _ hc hd
  rcases h0 with h0 | ⟨h1, h2⟩
  · exact Or.inl h0
  · right
    simp [Dbl.sign, not_lt.mpr h1, not_lt.mpr h2]

theorem fadd_exact {a b c : ℚ} (hc : a + b = c) (hd : is_double c)
    (h0 : c ≠ 0 ∨ 0 ≤ a ∨ 0 ≤ b) : fadd (.fin a) (.fin b) = .fin c := by
  rw [fadd_of_finite (a := .fin a) (b := .fin b) rfl rfl]
  apply round_to_exact _ hc hd
  rcases h0 with h0 | h1 | h2
  · exact Or.inl h0
  · right
    simp [Dbl.sign, not_lt.mpr h1]
  · right
    simp [Dbl.sign, not_lt.mpr h2]

theorem flt_zero_of_finite {a : Dbl} (ha : a.is_finite = true) :
    flt a (.fin 0) = decide (a.val < 0) := by
  cases a <;> simp_all [flt, Dbl.is_finite, Dbl.val]

theorem c_round_zero : c_round 0 = 0 := by
  simpa using c_round_intCast 0

theorem fround_fin (x : ℚ) :
    fround (.fin x) = if c_round x = 0 then signed_zero (decide (x < 0)) else .fin (c_round x) :=
  rfl

theorem fround_of_finite {a : Dbl} (ha : a.is_finite = true) :
    (fround a).is_finite = true ∧ (fround a).val = c_round a.val := by
  cases a with
  | fin x =>
    rw [fround_fin]
    split_ifs with h
    · rw [show (Dbl.fin x).val = x from rfl, h]
      unfold signed_zero
      split_ifs <;> exact ⟨rfl, by simp [Dbl.val]⟩
    · exact ⟨rfl, rfl⟩
  | nzero =>
    refine ⟨rfl, ?_⟩
    rw [show fround .nzero = .nzero from rfl, show Dbl.nzero.val = 0 from rfl, c_round_zero]
    simp
  | pinf => simp [Dbl.is_finite] at ha
  | ninf => simp [Dbl.is_finite] at ha
  | nan => simp [Dbl.is_finite] at ha

theorem truncate_intCast (z : ℤ) : truncate (z : ℚ) = z := by
  unfold truncate
  split_ifs <;> simp

theorem to_pa_volume_t_fround {a : Dbl} (ha : a.is_finite = true) (h0 : 0 ≤ c_round a.val)
    (h1 : c_round a.val < 2 ^ 32) : to_pa_volume_t (fround a) = some (c_round a.val).toNat := by
  obtain ⟨hf, hv⟩ := fround_of_finite ha
  unfold to_pa_volume_t
  rw [hv, truncate_intCast, if_pos ⟨hf, h0, h1⟩]

theorem to_pa_volume_t_fround_eq_some {a : Dbl} {n : ℕ}
    (h : to_pa_volume_t (fround a) = some n) :
    a.is_finite = true ∧ 0 ≤ c_round a.val ∧ c_round a.val < 2 ^ 32 ∧
      n = (c_round a.val).toNat := by
  have ha : a.is_finite = true := by
    cases a <;> simp_all [to_pa_volume_t, fround, Dbl.is_finite]
  obtain ⟨hf, hv⟩ := fround_of_finite ha
  unfold to_pa_volume_t at h
  rw [hv, truncate_intCast] at h
  split_ifs at h with hc
  exact ⟨ha, hc.2.1, hc.2.2, (Option.some.inj h).symm⟩

theorem to_pa_volume_t_fround_fin_nat (n : ℕ) (h : n < 2 ^ 32) :
    to_pa_volume_t (fround (.fin n)) = some n := by
  have := to_pa_volume_t_fround (a := .fin n) rfl
    (by rw [show (Dbl.fin (n : ℚ)).val = n from rfl, c_round_nat]; positivity)
    (by rw [show (Dbl.fin (n : ℚ)).val = n from rfl, c_round_nat]; exact_mod_cast h)
  rw [this, show (Dbl.fin (n : ℚ)).val = n from rfl, c_round_nat]
  simp

theorem fdiv_fin_finite {x y : ℚ} (hy : y ≠ 0) (hb : |rnd (x / y)| ≤ DBL_MAX) :
    (fdiv (.fin x) (.fin y)).is_finite = true ∧ (fdiv (.fin x) (.fin y)).val = rnd (x / y) := by
  rw [fdiv_fin (.fin x) rfl hy]
  exact round_to_finite _ hb

/-! ## Lemmas: the order of the doubles -/

theorem DBL_MAX_pos : 0 < DBL_MAX := by
  unfold DBL_MAX; norm_num

theorem round_to_cases (x : ℚ) (s : Bool) :
    (DBL_MAX < rnd x ∧ round_to x s = .pinf) ∨ (rnd x < -DBL_MAX ∧ round_to x s = .ninf) ∨
    (|rnd x| ≤ DBL_MAX ∧ (round_to x s).is_finite = true ∧ (round_to x s).val = rnd x) := by
  by_cases h : DBL_MAX < |rnd x|
  · unfold round_to
    rw [if_pos h]
    by_cases hx : x < 0
    · right; left
      have := rnd_nonpos hx.le
      rw [abs_of_nonpos this] at h
      exact ⟨by linarith, by simp [signed_inf, hx]⟩
    · left
      have := rnd_nonneg (not_lt.mp hx)
      rw [abs_of_nonneg this] at h
      exact ⟨h, by simp [signed_inf, hx]⟩
  · right; right
    exact ⟨not_lt.mp h, round_to_finite s (not_lt.mp h)⟩

theorem round_to_ne_nan (x : ℚ) (s : Bool) : round_to x s ≠ .nan := by
  rcases round_to_cases x s with ⟨_, h⟩ | ⟨_, h⟩ | ⟨_, h, _⟩
  · rw [h]; simp
  · rw [h]; simp
  · intro hn; rw [hn] at h; simp [Dbl.is_finite] at h

theorem round_to_le {x y : ℚ} (s t : Bool) (h : x ≤ y) :
    Dbl.le (round_to x s) (round_to y t) := by
  have hm := rnd_mono h
  have hpos := DBL_MAX_pos
  refine ⟨round_to_ne_nan x s, round_to_ne_nan y t, ?_⟩
  rcases round_to_cases x s with ⟨hx, hxe⟩ | ⟨hx, hxe⟩ | ⟨hx, hxf, hxv⟩
  · rcases round_to_cases y t with ⟨hy, hye⟩ | ⟨hy, hye⟩ | ⟨hy, hyf, hyv⟩
    · exact Or.inr (Or.inl hye)
    · linarith
    · have := (abs_le.mp hy).2
      linarith
  · exact Or.inl hxe
  · rcases round_to_cases y t with ⟨hy, hye⟩ | ⟨hy, hye⟩ | ⟨hy, hyf, hyv⟩
    · exact Or.inr (Or.inl hye)
    · have := (abs_le.mp hx).1
      linarith
    · exact Or.inr (Or.inr ⟨hxf, hyf, by rw [hxv, hyv]; exact hm⟩)

theorem round_to_nonneg {x : ℚ} (s : Bool) (h : 0 ≤ x) : Dbl.le (.fin 0) (round_to x s) := by
  have h0 := rnd_nonneg h
  have hpos := DBL_MAX_pos
  refine ⟨by simp, round_to_ne_nan x s, ?_⟩
  rcases round_to_cases x s with ⟨hx, hxe⟩ | ⟨hx, hxe⟩ | ⟨hx, hxf, hxv⟩
  · exact Or.inr (Or.inl hxe)
  · linarith
  · exact Or.inr (Or.inr ⟨rfl, hxf, by rw [hxv]; exact h0⟩)

theorem le_zero_cases {a : Dbl} (h : Dbl.le (.fin 0) a) :
    a = .pinf ∨ (a.is_finite = true ∧ 0 ≤ a.val) := by
  obtain ⟨_, _, h | h | ⟨_, h2, h3⟩⟩ := h
  · simp at h
  · exact Or.inl h
  · exact Or.inr ⟨h2, h3⟩

theorem clamp_le {a b : Dbl} (h : Dbl.le a b) :
    Dbl.le (.fin 0) (if flt a (.fin 0) then Dbl.fin 0 else a) ∧
    Dbl.le (if flt a (.fin 0) then Dbl.fin 0 else a) (if flt b (.fin 0) then Dbl.fin 0 else b) := by
  obtain ⟨ha, hb, h⟩ := h
  cases a <;> cases b <;>
    simp_all [Dbl.le, flt, Dbl.is_finite, Dbl.val] <;>
    split_ifs <;> simp_all [Dbl.is_finite, Dbl.val]
  linarith

theorem fmul_norm_le {a b : Dbl} (h0 : Dbl.le (.fin 0) a) (h : Dbl.le a b) :
    Dbl.le (.fin 0) (fmul a (.fin 65536)) ∧
    Dbl.le (fmul a (.fin 65536)) (fmul b (.fin 65536)) := by
  have hinf : fmul .pinf (.fin 65536) = .pinf := by
    simp [fmul, Dbl.is_inf, Dbl.is_zero, signed_inf, Dbl.sign]
  have hfinite : ∀ c : Dbl, c.is_finite = true → 0 ≤ c.val →
      fmul c (.fin 65536) = round_to (c.val * 65536) (xor c.sign (Dbl.fin 65536).sign) ∧
      Dbl.le (.fin 0) (fmul c (.fin 65536)) := by
    intro c hc hc0
    have e := fmul_of_finite (a := c) (b := .fin 65536) hc rfl
    rw [show (Dbl.fin 65536).val = 65536 from rfl] at e
    refine ⟨e, ?_⟩
    rw [e]
    exact round_to_nonneg _ (by positivity)
  have hb0 : Dbl.le (.fin 0) b := by
    obtain ⟨_, hb, h⟩ := h
    rcases le_zero_cases h0 with ha | ⟨haf, hav⟩
    · subst ha
      rcases h with h | h | ⟨h, _⟩
      · simp at h
      · subst h; exact ⟨by simp, by simp, Or.inr (Or.inl rfl)⟩
      · simp [Dbl.is_finite] at h
    · rcases h with h | h | ⟨_, hbf, hv⟩
      · subst h; simp [Dbl.is_finite] at haf
      · subst h; exact ⟨by simp, by simp, Or.inr (Or.inl rfl)⟩
      · exact ⟨by simp, hb, Or.inr (Or.inr ⟨rfl, hbf, le_trans hav hv⟩)⟩
  rcases le_zero_cases hb0 with hb | ⟨hbf, hbv⟩
  · subst hb
    rw [hinf]
    rcases le_zero_cases h0 with ha | ⟨haf, hav⟩
    · subst ha
      rw [hinf]
      exact ⟨⟨by simp, by simp, Or.inr (Or.inl rfl)⟩, ⟨by simp, by simp, Or.inr (Or.inl rfl)⟩⟩
    · obtain ⟨e, hle⟩ := hfinite a haf hav
      exact ⟨hle, ⟨hle.2.1, by simp, Or.inr (Or.inl rfl)⟩⟩
  · rcases le_zero_cases h0 with ha | ⟨haf, hav⟩
    · subst ha
      obtain ⟨_, _, h | h | ⟨h, _⟩⟩ := h
      · simp at h
      · subst h; simp [Dbl.is_finite] at hbf
      · simp [Dbl.is_finite] at h
    · obtain ⟨ea, hlea⟩ := hfinite a haf hav
      obtain ⟨eb, hleb⟩ := hfinite b hbf hbv
      refine ⟨hlea, ?_⟩
      rw [ea, eb]
      apply round_to_le
      obtain ⟨_, _, h | h | ⟨_, _, hv⟩⟩ := h
      · subst h; simp [Dbl.is_finite] at haf
      · subst h; simp [Dbl.is_finite] at hbf
      · exact mul_le_mul_of_nonneg_right hv (by norm_num)

theorem to_pa_volume_t_fround_le {a b : Dbl} {n : ℕ} (h0 : Dbl.le (.fin 0) a) (h : Dbl.le a b)
    (hb : to_pa_volume_t (fround b) = some n) :
    ∃ m, to_pa_volume_t (fround a) = some m ∧ m ≤ n := by
  obtain ⟨hbf, hb0, hb1, hn⟩ := to_pa_volume_t_fround_eq_some hb
  rcases le_zero_cases h0 with ha | ⟨haf, hav⟩
  · subst ha
    obtain ⟨_, _, h | h | ⟨h, _⟩⟩ := h
    · simp at h
    · subst h; simp [Dbl.is_finite] at hbf
    · simp [Dbl.is_finite] at h
  · have hv : a.val ≤ b.val := by
      obtain ⟨_, _, h | h | ⟨_, _, hv⟩⟩ := h
      · subst h; simp [Dbl.is_finite] at haf
      · subst h; simp [Dbl.is_finite] at hbf
      · exact hv
    have hc := c_round_mono_of_nonneg hav hv
    have hc0 := c_round_nonneg hav
    refine ⟨(c_round a.val).toNat, to_pa_volume_t_fround haf hc0 (lt_of_le_of_lt hc hb1), ?_⟩
    rw [hn]
    exact Int.toNat_le_toNat hc

theorem fadd_inf_left {a b : Dbl} (ha : a.is_inf = true) (hb : b.is_finite = true) :
    fadd a b = a := by
  cases a <;> cases b <;> simp_all [fadd, Dbl.is_inf, Dbl.is_finite]

theorem fadd_nan_left (b : Dbl) : fadd .nan b = .nan := by
  simp [fadd]

/-- The step in percent as a double: finite, and non-decreasing in the step. -/
theorem fdiv_hundred_mono {d1 d2 : ℤ} (h : d1 ≤ d2) (h1 : -2 ^ 31 ≤ d1) (h2 : d2 < 2 ^ 31) :
    (fdiv (of_int d1) (.fin 100)).is_finite = true ∧
    (fdiv (of_int d2) (.fin 100)).is_finite = true ∧
    (fdiv (of_int d1) (.fin 100)).val ≤ (fdiv (of_int d2) (.fin 100)).val := by
  have b : ∀ d : ℤ, -2 ^ 31 ≤ d → d < 2 ^ 31 → |rnd ((d : ℚ) / 100)| ≤ DBL_MAX := by
    intro d hd1 hd2
    have hdq1 : -(2 : ℚ) ^ 31 ≤ d := by exact_mod_cast hd1
    have hdq2 : (d : ℚ) < 2 ^ 31 := by exact_mod_cast hd2
    apply rnd_le_DBL_MAX (a := 25) (by norm_num) (by norm_num)
    rw [abs_le]; constructor <;> norm_num <;> linarith
  rw [of_int_eq (n := d1) (by rw [abs_lt]; constructor <;> omega),
    of_int_eq (n := d2) (by rw [abs_lt]; constructor <;> omega)]
  obtain ⟨f1, v1⟩ := fdiv_fin_finite (x := (d1 : ℚ)) (y := 100) (by norm_num) (b d1 h1 (by omega))
  obtain ⟨f2, v2⟩ := fdiv_fin_finite (x := (d2 : ℚ)) (y := 100) (by norm_num) (b d2 (by omega) h2)
  refine ⟨f1, f2, ?_⟩
  rw [v1, v2]
  apply rnd_mono
  have : (d1 : ℚ) ≤ d2 := by exact_mod_cast h
  linarith

/-- Adding a larger finite double gives the same double or a larger one. -/
theorem fadd_le_or_eq (p : Dbl) {r1 r2 : Dbl} (h1 : r1.is_finite = true)
    (h2 : r2.is_finite = true) (h : r1.val ≤ r2.val) :
    fadd p r1 = fadd p r2 ∨ Dbl.le (fadd p r1) (fadd p r2) := by
  cases hp : p with
  | nan => left; rw [fadd_nan_left, fadd_nan_left]
  | pinf => left; rw [fadd_inf_left (a := .pinf) rfl h1, fadd_inf_left (a := .pinf) rfl h2]
  | ninf => left; rw [fadd_inf_left (a := .ninf) rfl h1, fadd_inf_left (a := .ninf) rfl h2]
  | nzero =>
    right
    rw [fadd_of_finite (a := .nzero) rfl h1, fadd_of_finite (a := .nzero) rfl h2]
    exact round_to_le _ _ (by linarith)
  | fin x =>
    right
    rw [fadd_of_finite (a := .fin x) rfl h1, fadd_of_finite (a := .fin x) rfl h2]
    exact round_to_le _ _ (by linarith)

/-! ## Lemmas: evaluating gammaCorrection -/

theorem norm_cast_eq : ((PA_VOLUME_NORM : ℕ) : ℚ) = 65536 := by
  unfold PA_VOLUME_NORM; norm_num

theorem gammaCorrection_chain (pow : Dbl → Dbl → Dbl) (i : ℕ) (gamma : Dbl) (delta : ℤ)
    {J0 D R J1 E P S Q J6 : Dbl}
    (h0 : of_int i = J0) (hd : of_int delta = D) (hr : fdiv D (.fin 100) = R)
    (h1 : fdiv J0 (.fin 65536) = J1) (he : fdiv (.fin 1) gamma = E)
    (hp : pow J1 E = P) (hs : fadd P R = S)
    (hq : pow (if flt S (.fin 0) then .fin 0 else S) gamma = Q)
    (h6 : fmul Q (.fin 65536) = J6) :
    gammaCorrection pow i gamma delta = to_pa_volume_t (fround J6) := by
  subst h0 hd hr h1 he hp hs hq h6
  unfold gammaCorrection
  rw [of_int_norm]

theorem clamp_fin (s : ℚ) :
    (if flt (.fin s) (.fin 0) then Dbl.fin 0 else .fin s) = .fin (if s < 0 then 0 else s) := by
  rw [flt_zero_of_finite (a := .fin s) rfl]
  by_cases h : s < 0
  · simp [Dbl.val, h]
  · simp [Dbl.val, h]

theorem fdiv_norm_exact {v : ℕ} (hv : v < 2 ^ 32) :
    is_double ((v : ℚ) / 65536) ∧ fdiv (.fin v) (.fin 65536) = .fin ((v : ℚ) / 65536) := by
  have e : (v : ℚ) / 65536 = ((v : ℤ) : ℚ) * 2 ^ (-16 : ℤ) := by
    push_cast; norm_num; ring
  have hvq : ((v : ℚ)) < 2 ^ 32 := by exact_mod_cast hv
  have hd : is_double ((v : ℚ) / 65536) := by
    constructor
    · rw [e]; exact rnd_exact v (-16) (by rw [abs_lt]; constructor <;> omega) (by norm_num)
    · rw [abs_of_nonneg (by positivity)]
      refine le_trans (div_le_self (by positivity) (by norm_num)) ?_
      refine le_trans hvq.le ?_
      unfold DBL_MAX; norm_num
  exact ⟨hd, fdiv_exact (by norm_num) rfl hd (Or.inr ⟨by positivity, by norm_num⟩)⟩

/-- The sum of a volume fraction and a rounded step in percent is zero or at
least `2^-59` in magnitude, so its rounding does not underflow. -/
theorem fraction_add_step_ne_zero {v : ℕ} {d : ℤ}
    (h : (v : ℚ) / 65536 + rnd ((d : ℚ) / 100) < 0) :
    rnd ((v : ℚ) / 65536 + rnd ((d : ℚ) / 100)) ≠ 0 := by
  set x : ℚ := (d : ℚ) / 100 with hx
  have hA0 : (0 : ℚ) ≤ (v : ℚ) / 65536 := by positivity
  have hr : rnd x < 0 := by linarith
  have hd : d < 0 := by
    by_contra hd
    push_neg at hd
    have : (0 : ℚ) ≤ x := by
      have : (0 : ℚ) ≤ d := by exact_mod_cast hd
      rw [hx]; positivity
    exact absurd (rnd_nonneg this) (not_le.mpr hr)
  have hd1 : (d : ℚ) ≤ -1 := by
    have : d ≤ -1 := by omega
    exact_mod_cast this
  have hx0 : x ≠ 0 := by rw [hx]; intro h0; rw [div_eq_zero_iff] at h0; norm_num at h0; linarith
  have hxabs : (2 : ℚ) ^ (-7 : ℤ) ≤ |x| := by
    rw [hx, abs_of_neg (by linarith : (d : ℚ) / 100 < 0)]
    norm_num
    linarith
  have hb : -7 ≤ binade x := by
    unfold binade
    exact (Int.zpow_le_iff_le_log (by norm_num) (abs_pos.mpr hx0)).mp (by simpa using hxabs)
  have hq : -59 ≤ qexp x := by unfold qexp; omega
  obtain ⟨k, hk⟩ := Int.eq_ofNat_of_zero_le (show 0 ≤ qexp x + 59 by omega)
  have hulp : ulp x = (2 ^ k : ℤ) * (2 : ℚ) ^ (-59 : ℤ) := by
    rw [ulp_eq, show qexp x = (k : ℤ) + -59 by omega, zpow_add₀ (by norm_num : (2 : ℚ) ≠ 0),
      zpow_natCast]
    push_cast
    ring
  have hsum : (v : ℚ) / 65536 + rnd x =
      ((v * 2 ^ 43 + roundEven (x / ulp x) * 2 ^ k : ℤ) : ℚ) * (2 : ℚ) ^ (-59 : ℤ) := by
    have e1 : (v : ℚ) / 65536 = ((v : ℤ) : ℚ) * 2 ^ 43 * (2 : ℚ) ^ (-59 : ℤ) := by
      push_cast; norm_num; ring
    have e2 : rnd x = (roundEven (x / ulp x) : ℚ) * ((2 ^ k : ℤ) * (2 : ℚ) ^ (-59 : ℤ)) := by
      rw [← hulp]; rfl
    rw [e1, e2]
    push_cast
    ring
  set M : ℤ := v * 2 ^ 43 + roundEven (x / ulp x) * 2 ^ k with hM
  have h59 : (0 : ℚ) < (2 : ℚ) ^ (-59 : ℤ) := by positivity
  have hMneg : M < 0 := by
    by_contra hM0
    push_neg at hM0
    have : (0 : ℚ) ≤ (M : ℚ) := by exact_mod_cast hM0
    have : 0 ≤ (M : ℚ) * (2 : ℚ) ^ (-59 : ℤ) := by positivity
    rw [hsum] at h
    linarith
  have hM1 : (M : ℚ) ≤ -1 := by
    have : M ≤ -1 := by omega
    exact_mod_cast this
  have hle : (v : ℚ) / 65536 + rnd x ≤ ((-1 : ℤ) : ℚ) * (2 : ℚ) ^ (-59 : ℤ) := by
    rw [hsum]
    push_cast
    nlinarith
  have hex := rnd_exact (-1) (-59) (by norm_num) (by norm_num)
  have := rnd_mono hle
  rw [hex] at this
  intro h0
  rw [h0] at this
  push_cast at this
  linarith

/-! ## Lemmas: the values of libm_pow -/

theorem libm_pow_base_one (y : Dbl) : libm_pow (.fin 1) y = .fin 1 := by
  unfold libm_pow
  rw [if_pos (Or.inr rfl)]

theorem libm_pow_exp_zero (x : Dbl) : libm_pow x (.fin 0) = .fin 1 := by
  unfold libm_pow
  rw [if_pos (Or.inl (by simp [Dbl.is_zero]))]

theorem libm_pow_zero {y : ℚ} (hy : 0 < y) : libm_pow (.fin 0) (.fin y) = .fin 0 := by
  unfold libm_pow
  rw [if_neg (by simp [Dbl.is_zero, hy.ne']), if_neg (by simp), if_neg (by simp),
    if_neg (by simp), if_pos (by simp [Dbl.is_zero]), if_pos (by simpa [Dbl.val] using hy)]
  split_ifs <;> rfl

theorem libm_pow_zero_neg {y : ℚ} (hy : y < 0) : libm_pow (.fin 0) (.fin y) = .pinf := by
  unfold libm_pow
  rw [if_neg (by simp [Dbl.is_zero, hy.ne]), if_neg (by simp), if_neg (by simp),
    if_neg (by simp), if_pos (by simp [Dbl.is_zero]),
    if_neg (by simpa [Dbl.val] using hy.le)]
  split_ifs <;> simp [signed_inf, Dbl.sign]

theorem libm_pow_pinf_neg {y : ℚ} (hy : y < 0) : libm_pow .pinf (.fin y) = .fin 0 := by
  unfold libm_pow
  rw [if_neg (by simp [Dbl.is_zero, hy.ne]), if_neg (by simp), if_neg (by simp),
    if_neg (by simp), if_neg (by simp [Dbl.is_zero]), if_pos rfl,
    if_neg (by simpa [Dbl.val] using hy.le)]

theorem libm_pow_int {x : ℚ} (n : ℤ) (hn : n ≠ 0) (hx1 : x ≠ 1) (hx0 : x ≠ 0) :
    libm_pow (.fin x) (.fin n) = round_to (x ^ n) false := by
  unfold libm_pow
  rw [if_neg (by simp [Dbl.is_zero, hn, hx1]), if_neg (by simp), if_neg (by simp),
    if_neg (by simp), if_neg (by simp [Dbl.is_zero, hx0]), if_neg (by simp), if_neg (by simp),
    if_pos (by simp [Dbl.val])]
  simp [Dbl.val]

theorem libm_pow_sqrt {r : ℚ} (hr : 0 < r) (hr1 : r * r ≠ 1) :
    libm_pow (.fin (r * r)) (.fin (1 / 2)) = .fin r := by
  have hs : Rat.sqrt (r * r) = r := by rw [Rat.sqrt_eq, abs_of_pos hr]
  unfold libm_pow
  rw [if_neg (by simp [Dbl.is_zero, hr1]), if_neg (by simp), if_neg (by simp),
    if_neg (by simp), if_neg (by simp [Dbl.is_zero, hr.ne']), if_neg (by simp),
    if_neg (by simp), if_neg (by simp [Dbl.val]),
    if_neg (by simp only [Dbl.val]; exact not_lt.mpr (mul_self_nonneg r)),
    if_pos ⟨rfl, by simp only [Dbl.val]; rw [hs]⟩]
  simp only [Dbl.val]
  rw [hs]

theorem libm_pow_one_exact : pow_one_exact libm_pow := by
  intro x hx h0
  by_cases h1 : x = 1
  · rw [h1]; exact libm_pow_base_one _
  by_cases hz : x = 0
  · rw [hz]; exact libm_pow_zero (by norm_num)
  have := libm_pow_int (x := x) 1 (by norm_num) h1 hz
  simp only [Int.cast_one, zpow_one] at this
  rw [this]
  exact round_to_exact false rfl hx (Or.inl hz)

theorem linear_step_ten : linear_step 0 10 = 6554 := by
  have h : max (((0 : ℕ) : ℚ) + ((10 : ℤ) : ℚ) * PA_VOLUME_NORM / 100) 0 = 32768 / 5 := by
    rw [norm_cast_eq]; norm_num
  unfold linear_step
  rw [h, c_round_of_nonneg (by norm_num), Int.floor_eq_iff]
  norm_num

theorem linear_step_full_decrease : linear_step 32768 (-100) = 0 := by
  have h : max (((32768 : ℕ) : ℚ) + ((-100 : ℤ) : ℚ) * PA_VOLUME_NORM / 100) 0 = 0 := by
    rw [norm_cast_eq]; norm_num
  unfold linear_step
  rw [h]
  simpa using c_round_intCast 0

theorem linear_step_overflow : linear_step 0 6553600 = 4294967296 := by
  have h : max (((0 : ℕ) : ℚ) + ((6553600 : ℤ) : ℚ) * PA_VOLUME_NORM / 100) 0
      = ((4294967296 : ℤ) : ℚ) := by
    rw [norm_cast_eq]; norm_num
  unfold linear_step
  rw [h, c_round_intCast]

theorem of_int_zero : of_int 0 = .fin 0 := by
  simpa using of_int_eq (n := 0) (by norm_num)

theorem fdiv_zero_hundred : fdiv (.fin 0) (.fin 100) = .fin 0 :=
  fdiv_exact (by norm_num) (by norm_num) is_double_zero (Or.inr ⟨le_refl _, by norm_num⟩)

theorem fdiv_one_one : fdiv (.fin 1) (.fin 1) = .fin 1 :=
  fdiv_exact (by norm_num) (by norm_num) is_double_one (Or.inl (by norm_num))

theorem fmul_one_norm : fmul (.fin 1) (.fin 65536) = .fin 65536 :=
  fmul_exact (by norm_num) is_double_65536 (Or.inl (by norm_num))

theorem clamp_of_nonneg {s : ℚ} (h : 0 ≤ s) :
    (if flt (.fin s) (.fin 0) then Dbl.fin 0 else .fin s) = .fin s := by
  rw [clamp_fin, if_neg (not_lt.mpr h)]

theorem to_pa_volume_t_fround_norm : to_pa_volume_t (fround (.fin 65536)) = some 65536 := by
  simpa using to_pa_volume_t_fround_fin_nat 65536 (by norm_num)

/-- The zero step at `gamma = 1.0` returns the volume itself. -/
theorem gamma_one_zero_step (pow : Dbl → Dbl → Dbl) (hpow : pow_one_exact pow) (v : ℕ)
    (hv : v < 2 ^ 32) : gammaCorrection pow v (.fin 1) 0 = some v := by
  obtain ⟨hd, hA⟩ := fdiv_norm_exact hv
  have h0 : (0 : ℚ) ≤ (v : ℚ) / 65536 := by positivity
  have hvd : is_double (v : ℚ) := by
    simpa using is_double_int (n := (v : ℤ)) (by rw [abs_lt]; constructor <;> omega)
  rw [gammaCorrection_chain pow v (.fin 1) 0 (of_int_volume hv) of_int_zero fdiv_zero_hundred
    hA fdiv_one_one (hpow _ hd h0)
    (fadd_exact (add_zero _) hd (Or.inr (Or.inl h0)))
    (by rw [clamp_of_nonneg h0]; exact hpow _ hd h0)
    (fmul_exact (by ring) hvd (Or.inr ⟨h0, by norm_num⟩))]
  exact to_pa_volume_t_fround_fin_nat v hv

theorem eval_gamma_one_overflow : gammaCorrection libm_pow 0 (.fin 1) 6553600 = none := by
  have d1 : is_double 6553600 := by simpa using is_double_int (n := 6553600) (by norm_num)
  have d2 : is_double 4294967296 := by
    simpa using is_double_int (n := 4294967296) (by norm_num)
  rw [gammaCorrection_chain libm_pow 0 (.fin 1) 6553600 of_int_zero
    (by simpa using of_int_eq (n := 6553600) (by norm_num))
    (fdiv_exact (by norm_num) (by norm_num) is_double_65536 (Or.inl (by norm_num)))
    (fdiv_exact (by norm_num) (by norm_num) is_double_zero (Or.inr ⟨le_refl _, by norm_num⟩))
    fdiv_one_one (libm_pow_one_exact 0 is_double_zero (le_refl _))
    (fadd_exact (by norm_num) is_double_65536 (Or.inl (by norm_num)))
    (by rw [clamp_of_nonneg (by norm_num)]
        exact libm_pow_one_exact 65536 is_double_65536 (by norm_num))
    (fmul_exact (by norm_num) d2 (Or.inl (by norm_num)))]
  have h := c_round_intCast 4294967296
  norm_num at h
  have hf : fround (.fin 4294967296) = .fin 4294967296 := by
    rw [fround_fin, h]
    norm_num
  rw [hf]
  unfold to_pa_volume_t
  rw [if_neg]
  simp only [Dbl.val]
  have ht : truncate (4294967296 : ℚ) = 4294967296 := by
    simpa using truncate_intCast 4294967296
  rw [ht]
  norm_num

theorem eval_neg_gamma_zero_step :
    gammaCorrection libm_pow 65536 (.fin (-1)) 0 = some 65536 := by
  have dm : is_double (-1) := by simpa using is_double_int (n := -1) (by norm_num)
  rw [gammaCorrection_chain libm_pow 65536 (.fin (-1)) 0
    (by simpa using of_int_eq (n := 65536) (by norm_num)) of_int_zero fdiv_zero_hundred
    (fdiv_exact (by norm_num) (by norm_num) is_double_one (Or.inl (by norm_num)))
    (fdiv_exact (by norm_num) (by norm_num) dm (Or.inl (by norm_num)))
    (libm_pow_base_one _)
    (fadd_exact (by norm_num) is_double_one (Or.inl (by norm_num)))
    (by rw [clamp_of_nonneg (by norm_num)]; exact libm_pow_base_one _)
    fmul_one_norm]
  exact to_pa_volume_t_fround_norm

theorem eval_neg_gamma_full_step :
    gammaCorrection libm_pow 65536 (.fin (-1)) 100 = some 32768 := by
  have dm : is_double (-1) := by simpa using is_double_int (n := -1) (by norm_num)
  have d32768 : is_double 32768 := by simpa using is_double_int (n := 32768) (by norm_num)
  have hpow : libm_pow (.fin 2) (.fin (-1)) = .fin (1 / 2) := by
    have hc : (-1 : ℚ) = ((-1 : ℤ) : ℚ) := by norm_num
    rw [hc, libm_pow_int (-1) (by norm_num) (by norm_num) (by norm_num)]
    exact round_to_exact false (by norm_num) is_double_half (Or.inl (by norm_num))
  rw [gammaCorrection_chain libm_pow 65536 (.fin (-1)) 100
    (by simpa using of_int_eq (n := 65536) (by norm_num))
    (by simpa using of_int_eq (n := 100) (by norm_num))
    (fdiv_exact (by norm_num) (by norm_num) is_double_one (Or.inl (by norm_num)))
    (fdiv_exact (by norm_num) (by norm_num) is_double_one (Or.inl (by norm_num)))
    (fdiv_exact (by norm_num) (by norm_num) dm (Or.inl (by norm_num)))
    (libm_pow_base_one _)
    (fadd_exact (by norm_num) is_double_two (Or.inl (by norm_num)))
    (by rw [clamp_of_nonneg (by norm_num)]; exact hpow)
    (fmul_exact (by norm_num) d32768 (Or.inl (by norm_num)))]
  simpa using to_pa_volume_t_fround_fin_nat 32768 (by norm_num)

theorem eval_tiny_gamma_zero_step :
    gammaCorrection libm_pow 32768 (.fin (1 / 2048)) 0 = some 0 := by
  have d2048 : is_double 2048 := by simpa using is_double_int (n := 2048) (by norm_num)
  have hunder : libm_pow (.fin (1 / 2)) (.fin 2048) = .fin 0 := by
    have hc : (2048 : ℚ) = ((2048 : ℤ) : ℚ) := by norm_num
    rw [hc, libm_pow_int 2048 (by norm_num) (by norm_num) (by norm_num)]
    have hr : rnd (((1 : ℚ) / 2) ^ (2048 : ℤ)) = 0 := by
      apply rnd_of_tiny (by positivity)
      rw [one_div, inv_zpow, ← zpow_neg]
      exact zpow_lt_zpow_right₀ (by norm_num) (by norm_num)
    have := round_to_of_nonneg (x := ((1 : ℚ) / 2) ^ (2048 : ℤ))
      (by rw [hr]; unfold DBL_MAX; norm_num) (by positivity)
    rw [this, hr]
  rw [gammaCorrection_chain libm_pow 32768 (.fin (1 / 2048)) 0
    (by simpa using of_int_eq (n := 32768) (by norm_num)) of_int_zero fdiv_zero_hundred
    (fdiv_exact (by norm_num) (by norm_num) is_double_half (Or.inl (by norm_num)))
    (fdiv_exact (by norm_num) (by norm_num) d2048 (Or.inl (by norm_num)))
    hunder
    (fadd_exact (by norm_num) is_double_zero (Or.inr (Or.inl (le_refl _))))
    (by rw [clamp_of_nonneg (le_refl _)]; exact libm_pow_zero (by norm_num))
    (fmul_exact (by norm_num) is_double_zero (Or.inr ⟨le_refl _, by norm_num⟩))]
  simpa using to_pa_volume_t_fround_fin_nat 0 (by norm_num)

theorem gammaCorrection_eq (pow : Dbl → Dbl → Dbl) (i : ℕ) (gamma : Dbl) (delta : ℤ) :
    gammaCorrection pow i gamma delta =
      to_pa_volume_t (fround (fmul (pow
        (if flt (fadd (pow (fdiv (of_int i) (.fin 65536)) (fdiv (.fin 1) gamma))
            (fdiv (of_int delta) (.fin 100))) (.fin 0) then .fin 0
         else fadd (pow (fdiv (of_int i) (.fin 65536)) (fdiv (.fin 1) gamma))
            (fdiv (of_int delta) (.fin 100))) gamma) (.fin 65536))) :=
  gammaCorrection_chain pow i gamma delta rfl rfl rfl rfl rfl rfl rfl rfl rfl

theorem libm_pow_two_of_finite {x : Dbl} (hx : x.is_finite = true) :
    libm_pow x (.fin 2) = round_to (x.val ^ 2) false := by
  have h1 : round_to ((1 : ℚ) ^ 2) false = .fin 1 :=
    round_to_exact false (by norm_num) is_double_one (Or.inr rfl)
  have h0 : round_to ((0 : ℚ) ^ 2) false = .fin 0 :=
    round_to_exact false (by norm_num) is_double_zero (Or.inr rfl)
  cases x with
  | fin q =>
    by_cases hq1 : q = 1
    · rw [hq1, libm_pow_base_one, show (Dbl.fin 1).val = 1 from rfl, h1]
    by_cases hq0 : q = 0
    · rw [hq0, libm_pow_zero (by norm_num), show (Dbl.fin 0).val = 0 from rfl, h0]
    have := libm_pow_int (x := q) 2 (by norm_num) hq1 hq0
    simp only [Int.cast_ofNat] at this
    rw [this, zpow_ofNat]
    rfl
  | nzero =>
    rw [show Dbl.nzero.val = 0 from rfl, h0]
    unfold libm_pow
    rw [if_neg (by simp [Dbl.is_zero]), if_neg (by simp), if_neg (by simp),
      if_neg (by simp), if_pos (by simp [Dbl.is_zero]), if_pos (by simp [Dbl.val]),
      if_neg (by simp [is_odd_integer, Dbl.val])]
  | pinf => simp [Dbl.is_finite] at hx
  | ninf => simp [Dbl.is_finite] at hx
  | nan => simp [Dbl.is_finite] at hx

theorem libm_pow_two_pinf : libm_pow .pinf (.fin 2) = .pinf := by
  unfold libm_pow
  rw [if_neg (by simp [Dbl.is_zero]), if_neg (by simp), if_neg (by simp),
    if_neg (by simp), if_neg (by simp [Dbl.is_zero]), if_pos rfl, if_pos (by simp [Dbl.val])]

theorem libm_pow_monotone_at_two : pow_monotone_at libm_pow (.fin 2) := by
  intro x y hx hxy
  have key : ∀ z, Dbl.le (.fin 0) z → Dbl.le (.fin 0) (libm_pow z (.fin 2)) := by
    intro z hz
    rcases le_zero_cases hz with h | ⟨hf, _⟩
    · rw [h, libm_pow_two_pinf]
      exact ⟨by simp, by simp, Or.inr (Or.inl rfl)⟩
    · rw [libm_pow_two_of_finite hf]
      exact round_to_nonneg _ (by positivity)
  refine ⟨key x hx, ?_⟩
  obtain ⟨hxn, hyn, h⟩ := hxy
  rcases le_zero_cases hx with hxi | ⟨hxf, hx0⟩
  · subst hxi
    rcases h with h | h | ⟨h, _⟩
    · simp at h
    · subst h
      rw [libm_pow_two_pinf]
      exact ⟨by simp, by simp, Or.inr (Or.inl rfl)⟩
    · simp [Dbl.is_finite] at h
  · rcases h with h | h | ⟨_, hyf, hv⟩
    · subst h; simp [Dbl.is_finite] at hxf
    · subst h
      rw [libm_pow_two_pinf]
      exact ⟨(key x hx).2.1, by simp, Or.inr (Or.inl rfl)⟩
    · rw [libm_pow_two_of_finite hxf, libm_pow_two_of_finite hyf]
      exact round_to_le _ _ (pow_le_pow_left₀ hx0 hv 2)

theorem libm_pow_monotone_at_zero : pow_monotone_at libm_pow (.fin 0) := by
  intro x y _ _
  rw [libm_pow_exp_zero, libm_pow_exp_zero]
  exact ⟨⟨by simp, by simp, Or.inr (Or.inr ⟨rfl, rfl, by simp [Dbl.val]⟩)⟩,
    ⟨by simp, by simp, Or.inr (Or.inr ⟨rfl, rfl, le_refl _⟩)⟩⟩

/-- At `gamma = 0.0` the last call of `pow` gives 1, whatever the volume and the
step: the result is `PA_VOLUME_NORM`. -/
theorem eval_gamma_zero (pow : Dbl → Dbl → Dbl) (hpow : ∀ x, pow x (.fin 0) = .fin 1)
    (v : ℕ) (d : ℤ) : gammaCorrection pow v (.fin 0) d = some 65536 := by
  rw [gammaCorrection_eq, hpow, fmul_one_norm]
  exact to_pa_volume_t_fround_norm

theorem is_double_quarter : is_double (1 / 4) := by
  have h := rnd_exact 1 (-2) (by norm_num) (by norm_num)
  have e : ((1 : ℤ) : ℚ) * 2 ^ (-2 : ℤ) = 1 / 4 := by norm_num
  rw [e] at h
  exact ⟨h, by unfold DBL_MAX; rw [abs_of_pos (by norm_num)]; norm_num⟩

theorem libm_pow_sqrt_quarter : libm_pow (.fin (1 / 4)) (.fin (1 / 2)) = .fin (1 / 2) := by
  have := libm_pow_sqrt (r := 1 / 2) (by norm_num) (by norm_num)
  norm_num at this
  exact this

theorem libm_pow_half_squared : libm_pow (.fin (1 / 2)) (.fin 2) = .fin (1 / 4) := by
  rw [libm_pow_two_of_finite (x := .fin (1 / 2)) rfl]
  exact round_to_exact false (by simp [Dbl.val]; norm_num) is_double_quarter (Or.inr rfl)

theorem eval_gamma_two_half_step :
    gammaCorrection libm_pow 16384 (.fin 2) 50 = some 65536 := by
  rw [gammaCorrection_chain libm_pow 16384 (.fin 2) 50
    (by simpa using of_int_eq (n := 16384) (by norm_num))
    (by simpa using of_int_eq (n := 50) (by norm_num))
    (fdiv_exact (by norm_num) (by norm_num) is_double_half (Or.inl (by norm_num)))
    (fdiv_exact (by norm_num) (by norm_num) is_double_quarter (Or.inl (by norm_num)))
    (fdiv_exact (by norm_num) (by norm_num) is_double_half (Or.inl (by norm_num)))
    libm_pow_sqrt_quarter
    (fadd_exact (by norm_num) is_double_one (Or.inl (by norm_num)))
    (by rw [clamp_of_nonneg (by norm_num)]; exact libm_pow_base_one _)
    fmul_one_norm]
  exact to_pa_volume_t_fround_norm

/-! ## Lemmas: the round trip through two real powers -/

/-- A small real power of a base between `2^-16` and `2^16` is close to 1. -/
theorem rpow_small_exponent {x t : ℝ} (hx1 : 1 / 65536 ≤ x) (hx2 : x ≤ 65536) (ht0 : 0 ≤ t)
    (ht1 : t ≤ 1 / 65536) : 1 - 65535 * t ≤ x ^ t ∧ x ^ t ≤ 1 + 65535 * t := by
  have hx0 : 0 < x := lt_of_lt_of_le (by norm_num) hx1
  have hM := rpow_one_add_le_one_add_mul_self (s := 65535) (by norm_num) ht0 (by linarith)
  have e : (1 : ℝ) + 65535 = 65536 := by norm_num
  rw [e] at hM
  have hMpos : (0 : ℝ) < (65536 : ℝ) ^ t := Real.rpow_pos_of_pos (by norm_num) t
  constructor
  · have h1 : ((1 : ℝ) / 65536) ^ t ≤ x ^ t := Real.rpow_le_rpow (by norm_num) hx1 ht0
    have h2 : ((1 : ℝ) / 65536) ^ t = ((65536 : ℝ) ^ t)⁻¹ := by
      rw [one_div, Real.inv_rpow (by norm_num)]
    have h3 : 1 - 65535 * t ≤ ((65536 : ℝ) ^ t)⁻¹ := by
      rw [← one_div, le_div_iff₀ hMpos]
      nlinarith [mul_nonneg ht0 ht0]
    linarith
  · exact le_trans (Real.rpow_le_rpow hx0.le hx2 ht0) (by linarith)

/-- A power with an exponent of at most `2^16` of a base within `2^-52` of 1 is
close to 1. -/
theorem rpow_near_one {r G : ℝ} (hr1 : 1 - 1 / 4503599627370496 ≤ r)
    (hr2 : r ≤ 1 + 1 / 4503599627370496) (hG0 : 0 < G) (hG : G ≤ 65536) :
    1 - 1 / 68719476736 ≤ r ^ G ∧ r ^ G ≤ (1 - 1 / 68719476736)⁻¹ := by
  obtain ⟨u, hu⟩ : ∃ u : ℝ, u = 1 / 4503599627370496 := ⟨_, rfl⟩
  rw [← hu] at hr1 hr2
  have hu0 : 0 < u := by rw [hu]; norm_num
  have hu1 : 65536 * u = 1 / 68719476736 := by rw [hu]; norm_num
  have hlow : 1 - 1 / 68719476736 ≤ (1 - u) ^ G := by
    have hg1 : 1 ≤ max G 1 := le_max_right _ _
    have hg2 : max G 1 ≤ 65536 := max_le hG (by norm_num)
    have hb := one_add_mul_self_le_rpow_one_add (s := -u) (by rw [hu]; norm_num) hg1
    have hm : (1 + -u) ^ max G 1 ≤ (1 + -u) ^ G :=
      Real.rpow_le_rpow_of_exponent_ge (by rw [hu]; norm_num) (by rw [hu]; norm_num)
        (le_max_left _ _)
    rw [← sub_eq_add_neg] at hm hb
    rw [mul_neg] at hb
    have := mul_le_mul_of_nonneg_right hg2 hu0.le
    linarith
  have hr0 : 0 ≤ r := le_trans (by rw [hu]; norm_num) hr1
  constructor
  · exact le_trans hlow (Real.rpow_le_rpow (by rw [hu]; norm_num) hr1 hG0.le)
  · have h1 : r ^ G ≤ (1 + u) ^ G := Real.rpow_le_rpow hr0 hr2 hG0.le
    have h2 : (1 + u) ^ G ≤ ((1 - u)⁻¹) ^ G := by
      apply Real.rpow_le_rpow (by positivity) _ hG0.le
      rw [← one_div, le_div_iff₀ (by rw [hu]; norm_num)]
      nlinarith
    rw [Real.inv_rpow (by rw [hu]; norm_num)] at h2
    have h3 : ((1 - u) ^ G)⁻¹ ≤ (1 - 1 / 68719476736)⁻¹ :=
      inv_anti₀ (by norm_num) hlow
    exact le_trans h1 (le_trans h2 h3)

/-- The round trip through the two powers: if `E` is the reciprocal of `G` up to
a relative error of `2^-52`, `p` is `J^E` and `q` is `p^G`, each up to a relative
error of `2^-52`, then `q` is `J` up to a relative error of `2^-34`. -/
theorem round_trip_real {J E G p q : ℝ} (hJ : J = 0 ∨ (1 / 65536 ≤ J ∧ J ≤ 65536))
    (hG0 : 0 < G) (hG : G ≤ 65536) (hEG : |E * G - 1| ≤ 1 / 4503599627370496)
    (hp : |p - J ^ E| ≤ 1 / 4503599627370496 * J ^ E)
    (hq : |q - p ^ G| ≤ 1 / 4503599627370496 * p ^ G) :
    |q - J| ≤ J / 17179869184 := by
  rcases hJ with hJ | ⟨hJ1, hJ2⟩
  · subst hJ
    have hE : E ≠ 0 := by
      intro h
      rw [h, zero_mul, zero_sub, abs_neg, abs_one] at hEG
      norm_num at hEG
    rw [Real.zero_rpow hE, mul_zero, sub_zero] at hp
    have hp0 : p = 0 := abs_eq_zero.mp (le_antisymm hp (abs_nonneg p))
    rw [hp0, Real.zero_rpow hG0.ne', mul_zero, sub_zero] at hq
    have hq0 : q = 0 := abs_eq_zero.mp (le_antisymm hq (abs_nonneg q))
    rw [hq0]
    simp
  · have hJ0 : 0 < J := lt_of_lt_of_le (by norm_num) hJ1
    obtain ⟨u, hu⟩ : ∃ u : ℝ, u = 1 / 4503599627370496 := ⟨_, rfl⟩
    rw [← hu] at hEG hp hq
    have hu0 : 0 < u := by rw [hu]; norm_num
    -- the first power and its relative error
    have hT : 0 < J ^ E := Real.rpow_pos_of_pos hJ0 E
    have hp' := abs_le.mp hp
    have hr1 : 1 - u ≤ p / J ^ E := by
      rw [le_div_iff₀ hT]; linarith
    have hr2 : p / J ^ E ≤ 1 + u := by
      rw [div_le_iff₀ hT]; linarith
    have hr0 : 0 ≤ p / J ^ E := le_trans (by rw [hu]; norm_num) hr1
    have hpe : p = J ^ E * (p / J ^ E) := by field_simp
    -- the exponent of the round trip
    have hη := abs_le.mp hEG
    have hA : 1 - 65535 * u ≤ J ^ (E * G - 1) ∧ J ^ (E * G - 1) ≤ 1 + 65535 * u := by
      rcases le_total 0 (E * G - 1) with h0 | h0
      · obtain ⟨a1, a2⟩ := rpow_small_exponent hJ1 hJ2 h0 (by rw [hu] at hη; linarith [hη.2])
        constructor
        · nlinarith [hη.2]
        · nlinarith [hη.2]
      · have e : J ^ (E * G - 1) = J⁻¹ ^ (-(E * G - 1)) := by
          rw [Real.rpow_neg (inv_nonneg.mpr hJ0.le), Real.inv_rpow hJ0.le, inv_inv]
        have hi1 : 1 / 65536 ≤ J⁻¹ := by
          rw [one_div]; exact inv_anti₀ hJ0 hJ2
        have hi2 : J⁻¹ ≤ 65536 := by
          rw [inv_le_comm₀ hJ0 (by norm_num)]
          rw [one_div] at hJ1
          exact hJ1
        obtain ⟨a1, a2⟩ := rpow_small_exponent hi1 hi2 (neg_nonneg.mpr h0)
          (by rw [hu] at hη; linarith [hη.1])
        rw [e]
        constructor
        · nlinarith [hη.1]
        · nlinarith [hη.1]
    obtain ⟨hB1, hB2⟩ :=
      rpow_near_one (r := p / J ^ E) (by rw [← hu]; exact hr1) (by rw [← hu]; exact hr2) hG0 hG
    -- the second power
    have hpG : p ^ G = J * (J ^ (E * G - 1) * (p / J ^ E) ^ G) := by
      nth_rewrite 1 [hpe]
      rw [Real.mul_rpow hT.le hr0, ← Real.rpow_mul hJ0.le]
      have e : E * G = 1 + (E * G - 1) := by ring
      nth_rewrite 1 [e]
      rw [Real.rpow_add hJ0, Real.rpow_one]
      ring
    have hA0 : 0 ≤ J ^ (E * G - 1) := (Real.rpow_pos_of_pos hJ0 _).le
    have hB0 : 0 ≤ (p / J ^ E) ^ G := Real.rpow_nonneg hr0 G
    have hAB2 : J ^ (E * G - 1) * (p / J ^ E) ^ G ≤
        (1 + 65535 * u) * (1 - 1 / 68719476736)⁻¹ :=
      mul_le_mul hA.2 hB2 hB0 (by positivity)
    have hAB1 : (1 - 65535 * u) * (1 - 1 / 68719476736) ≤
        J ^ (E * G - 1) * (p / J ^ E) ^ G :=
      mul_le_mul hA.1 hB1 (by norm_num) hA0
    have hAB0 : 0 ≤ J ^ (E * G - 1) * (p / J ^ E) ^ G := mul_nonneg hA0 hB0
    have hq' := abs_le.mp hq
    rw [hpG] at hq'
    have c2 : (1 + u) * ((1 + 65535 * u) * (1 - 1 / 68719476736)⁻¹) ≤ 1 + 1 / 17179869184 := by
      rw [hu]; norm_num
    have c1 : 1 - 1 / 17179869184 ≤ (1 - u) * ((1 - 65535 * u) * (1 - 1 / 68719476736)) := by
      rw [hu]; norm_num
    have hu1 : 0 ≤ 1 - u := by rw [hu]; norm_num
    rw [abs_le]
    constructor
    · have := mul_le_mul_of_nonneg_left hAB1 hu1
      have h2 := mul_le_mul_of_nonneg_left (le_trans c1 this) hJ0.le
      linarith [hq'.1]
    · have := mul_le_mul_of_nonneg_left hAB2 (by positivity : (0 : ℝ) ≤ 1 + u)
      have h2 := mul_le_mul_of_nonneg_left (le_trans this c2) hJ0.le
      linarith [hq'.2]

/-! ## Lemmas: runs of the program -/

section
variable {σ α β : Type}

theorem pure_run (a : α) (w : World σ) : (pure a : Prog σ α) w = (.ok a, w) := rfl

theorem bind_run (m : Prog σ α) (f : α → Prog σ β) (w : World σ) :
    (m >>= f) w = Prog.bind m f w := rfl

theorem conflicting_options_run (vm : variables_map) (a b : Opt) (f : Unit → Prog σ β)
    (w : World σ) :
    (conflicting_options vm a b >>= f) w =
      if both_given vm (a, b) then (.error (.logic_error (conflict_message a b)), w)
      else f () w := by
  unfold conflicting_options both_given
  by_cases h : (vm.given a && vm.given b) = true
  · simp [h, bind_run, Prog.bind, raise]
  · simp [h, bind_run, Prog.bind, pure_run]

theorem conflicting_options_apply (vm : variables_map) (a b : Opt) (w : World σ) :
    conflicting_options vm a b w =
      if both_given vm (a, b) then (.error (.logic_error (conflict_message a b)), w)
      else (.ok (), w) := by
  unfold conflicting_options both_given
  by_cases h : (vm.given a && vm.given b) = true
  · simp [h, raise]
  · simp [h, pure_run]

theorem main_conflicts_run (vm : variables_map) (w : World σ) :
    main_conflicts vm w =
      match declared_conflicts.find? (both_given vm) with
      | some p => (.error (.logic_error (conflict_message p.1 p.2)), w)
      | none => (.ok (), w) := by
  unfold main_conflicts
  simp only [conflicting_options_run, conflicting_options_apply, declared_conflicts,
    List.find?_cons, List.find?_nil]
  cases h0 : both_given vm (.set_volume, .increase)
  swap
  · rfl
  simp only [Bool.false_eq_true, if_false]
  cases h1 : both_given vm (.set_volume, .decrease)
  swap
  · rfl
  simp only [Bool.false_eq_true, if_false]
  cases h2 : both_given vm (.decrease, .increase)
  swap
  · rfl
  simp only [Bool.false_eq_true, if_false]
  cases h3 : both_given vm (.toggle_mute, .mute)
  swap
  · rfl
  simp only [Bool.false_eq_true, if_false]
  cases h4 : both_given vm (.toggle_mute, .unmute)
  swap
  · rfl
  simp only [Bool.false_eq_true, if_false]
  cases h5 : both_given vm (.unmute, .mute)
  swap
  · rfl
  simp only [Bool.false_eq_true, if_false]
  cases h6 : both_given vm (.sink, .source)
  swap
  · rfl
  simp only [Bool.false_eq_true, if_false]
  cases h7 : both_given vm (.sink, .default_source)
  swap
  · rfl
  simp only [Bool.false_eq_true, if_false]
  cases h8 : both_given vm (.get_volume, .get_mute)
  swap
  · rfl
  simp only [Bool.false_eq_true, if_false]
  cases h9 : both_given vm (.get_volume, .list_sinks)
  swap
  · rfl
  simp only [Bool.false_eq_true, if_false]
  cases h10 : both_given vm (.get_volume, .list_sources)
  swap
  · rfl
  simp only [Bool.false_eq_true, if_false]

theorem main_conflicts_ok_iff (vm : variables_map) (w : World σ) :
    (main_conflicts vm w).1 = .ok () ↔ validated vm := by
  rw [main_conflicts_run]
  unfold validated
  constructor
  · intro h p hp
    cases hf : declared_conflicts.find? (both_given vm) with
    | none =>
      have := List.find?_eq_none.mp hf p hp
      simpa using this
    | some q =>
      rw [hf] at h
      cases h
  · intro h
    have hf : declared_conflicts.find? (both_given vm) = none := by
      rw [List.find?_eq_none]
      intro p hp
      simp [h p hp]
    rw [hf]

theorem print_devices_ok (ds : List Device) (w : World σ) :
    print_devices ds w =
      (.ok (), { w with cout := w.cout ++ ds.map fun d => .text (device_line d) }) := by
  induction ds generalizing w with
  | nil => simp [print_devices, pure_run]
  | cons d ds ih => simp [print_devices, bind_run, Prog.bind, print, ih]

theorem bind_assoc_run (m : Prog σ α) (f : α → Prog σ β) {γ : Type} (g : β → Prog σ γ)
    (w : World σ) : ((m >>= f) >>= g) w = (m >>= fun a => f a >>= g) w := by
  simp only [bind_run, Prog.bind]
  cases h : m w with
  | mk r w1 => cases r <;> rfl

theorem bind_ok {m : Prog σ α} {w w1 : World σ} {a : α} (h : m w = (.ok a, w1))
    (f : α → Prog σ β) : (m >>= f) w = f a w1 := by
  rw [bind_run, Prog.bind, h]

theorem no_set_volume_pure (a : α) : no_set_volume (pure a : Prog σ α) :=
  fun w => ⟨[], by simp [pure_run], by simp⟩

theorem no_set_volume_bind {m : Prog σ α} {f : α → Prog σ β} (hm : no_set_volume m)
    (hf : ∀ a, no_set_volume (f a)) : no_set_volume (m >>= f) := by
  intro w
  obtain ⟨e1, h1, n1⟩ := hm w
  rw [bind_run, Prog.bind]
  cases h : m w with
  | mk r w1 =>
    rw [h] at h1
    cases r with
    | error e => exact ⟨e1, h1, n1⟩
    | ok a =>
      obtain ⟨e2, h2, n2⟩ := hf a w1
      refine ⟨e1 ++ e2, ?_, ?_⟩
      · simp only at h1 ⊢
        rw [h2, h1, List.append_assoc]
      · intro c hc
        rcases List.mem_append.mp hc with hc | hc
        · exact n1 c hc
        · exact n2 c hc

theorem no_set_volume_query (c : Call) (f : σ → α) (hc : c.is_set_volume = false) :
    no_set_volume (query c f) :=
  fun w => ⟨[c], rfl, by simpa using hc⟩

theorem no_set_volume_lookup (c : Call) (f : σ → Except String α)
    (hc : c.is_set_volume = false) : no_set_volume (lookup c f) := by
  intro w
  refine ⟨[c], ?_, by simpa using hc⟩
  unfold lookup
  cases f w.server <;> rfl

theorem no_set_volume_mutate (c : Call) (f : σ → σ) (hc : c.is_set_volume = false) :
    no_set_volume (mutate c f) :=
  fun w => ⟨[c], rfl, by simpa using hc⟩

theorem no_set_volume_connect (P : Pulseaudio σ) (client : String) :
    no_set_volume (connect P client) := by
  intro w
  refine ⟨[.connect client], ?_, by simp [Call.is_set_volume]⟩
  unfold connect
  cases P.connect w.server client <;> rfl

theorem no_set_volume_get_selected_device (P : Pulseaudio σ) (vm : variables_map)
    (sink_name source_name : String) :
    no_set_volume (get_selected_device P vm sink_name source_name) := by
  unfold get_selected_device
  refine no_set_volume_bind (no_set_volume_query .get_default_sink _ rfl) ?_
  intro device
  split_ifs
  · exact no_set_volume_lookup _ _ rfl
  · exact no_set_volume_query _ _ rfl
  · exact no_set_volume_lookup _ _ rfl
  · exact no_set_volume_pure _

theorem no_set_volume_main_lookup (P : Pulseaudio σ) (vm : variables_map)
    (sink_name source_name : String) :
    no_set_volume (main_lookup P vm sink_name source_name) :=
  no_set_volume_bind (no_set_volume_connect P _)
    (fun _ => no_set_volume_get_selected_device P vm sink_name source_name)

theorem no_set_volume_main_mute (P : Pulseaudio σ) (vm : variables_map) (device : Device) :
    no_set_volume (main_mute P vm device) := by
  unfold main_mute set_mute
  split_ifs
  · exact no_set_volume_mutate _ _ rfl
  · exact no_set_volume_mutate _ _ rfl
  · exact no_set_volume_mutate _ _ rfl
  · exact no_set_volume_pure _

theorem main_query_run (P : Pulseaudio σ) (vm : variables_map) (device : Device)
    (w : World σ) :
    (main_query P vm device w).1 =
      .ok (if vm.count .get_volume ≠ 0 then (if device.volume_percent > 0 then 0 else 1)
           else if vm.count .get_mute ≠ 0 then (if device.mute then 0 else 1)
           else 0)
    ∧ (main_query P vm device w).2.server = w.server
    ∧ (main_query P vm device w).2.calls = w.calls ++
        (if vm.count .get_volume ≠ 0 ∨ vm.count .get_mute ≠ 0 then []
         else (if vm.count .list_sinks ≠ 0 then [Call.get_sinks] else []) ++
           (if vm.count .list_sources ≠ 0 then [Call.get_sources] else []))
    ∧ (vm.count .get_volume ≠ 0 →
        (main_query P vm device w).2.cout = w.cout ++ [.text (toString device.volume_percent)])
    ∧ (vm.count .get_volume = 0 → vm.count .get_mute ≠ 0 →
        (main_query P vm device w).2.cout =
          w.cout ++ [.text (if device.mute then "true" else "false")]) := by
  unfold main_query
  refine ⟨?_, ?_, ?_, ?_, ?_⟩
  · split_ifs <;>
      simp [bind_run, Prog.bind, print, pure_run, query, print_devices_ok]
  · split_ifs <;>
      simp [bind_run, Prog.bind, print, pure_run, query, print_devices_ok]
  · split_ifs <;>
      simp_all [bind_run, Prog.bind, print, pure_run, query, print_devices_ok]
  · intro h
    simp [h, bind_run, Prog.bind, print, pure_run]
  · intro h1 h2
    simp [h1, h2, bind_run, Prog.bind, print, pure_run]

theorem no_set_volume_main_query (P : Pulseaudio σ) (vm : variables_map) (device : Device) :
    no_set_volume (main_query P vm device) := by
  intro w
  refine ⟨_, (main_query_run P vm device w).2.2.1, ?_⟩
  intro c hc
  split_ifs at hc <;> simp at hc
  · rcases hc with hc | hc <;> subst hc <;> rfl
  · subst hc; rfl
  · subst hc; rfl

theorem no_output_pure (a : α) : no_output (pure a : Prog σ α) := fun _ => rfl

theorem no_output_bind {m : Prog σ α} {f : α → Prog σ β} (hm : no_output m)
    (hf : ∀ a, no_output (f a)) : no_output (m >>= f) := by
  intro w
  have h1 := hm w
  rw [bind_run, Prog.bind]
  cases h : m w with
  | mk r w1 =>
    rw [h] at h1
    cases r with
    | error e => exact h1
    | ok a => exact (hf a w1).trans h1

theorem no_output_query (c : Call) (f : σ → α) : no_output (query c f) := fun _ => rfl

theorem no_output_lookup (c : Call) (f : σ → Except String α) : no_output (lookup c f) := by
  intro w
  unfold lookup
  cases f w.server <;> rfl

theorem no_output_mutate (c : Call) (f : σ → σ) : no_output (mutate c f) := fun _ => rfl

theorem no_output_connect (P : Pulseaudio σ) (client : String) :
    no_output (connect P client) := by
  intro w
  unfold connect
  cases P.connect w.server client <;> rfl

theorem no_output_get_selected_device (P : Pulseaudio σ) (vm : variables_map)
    (sink_name source_name : String) :
    no_output (get_selected_device P vm sink_name source_name) := by
  unfold get_selected_device
  refine no_output_bind (no_output_query _ _) ?_
  intro device
  split_ifs
  · exact no_output_lookup _ _
  · exact no_output_query _ _
  · exact no_output_lookup _ _
  · exact no_output_pure _

theorem no_output_main_lookup (P : Pulseaudio σ) (vm : variables_map)
    (sink_name source_name : String) : no_output (main_lookup P vm sink_name source_name) :=
  no_output_bind (no_output_connect P _)
    (fun _ => no_output_get_selected_device P vm sink_name source_name)

theorem no_output_main_volume (P : Pulseaudio σ) (undef : ℕ) (pow : Dbl → Dbl → Dbl)
    (vm : variables_map) (sink_name source_name : String) (value : ℤ) (gamma : Dbl)
    (device : Device) :
    no_output (main_volume P undef pow vm sink_name source_name value gamma device) := by
  unfold main_volume
  split_ifs
  · exact no_output_bind (no_output_mutate _ _)
      (fun _ => no_output_get_selected_device P vm sink_name source_name)
  · exact no_output_pure _

theorem no_output_main_device (P : Pulseaudio σ) (undef : ℕ) (pow : Dbl → Dbl → Dbl)
    (vm : variables_map) (sink_name source_name : String) (value : ℤ) (gamma : Dbl) :
    no_output (main_device P undef pow vm sink_name source_name value gamma) :=
  no_output_bind (no_output_main_lookup P vm sink_name source_name)
    (fun _ => no_output_main_volume P undef pow vm sink_name source_name value gamma _)

/-- What `get_selected_device` returns, as a function of the server. -/
theorem get_selected_device_result (P : Pulseaudio σ) (vm : variables_map)
    (sink_name source_name : String) (w : World σ) :
    (get_selected_device P vm sink_name source_name w).1 =
      (if vm.count .sink ≠ 0 then (P.get_sink w.server sink_name).mapError Exn.backend
       else if vm.count .default_source ≠ 0 then .ok (P.get_default_source w.server)
       else if vm.count .source ≠ 0 then (P.get_source w.server source_name).mapError Exn.backend
       else .ok (P.get_default_sink w.server)) := by
  unfold get_selected_device
  simp only [bind_run, Prog.bind, query, lookup, pure_run]
  split_ifs
  · simp only [lookup]
    cases P.get_sink w.server sink_name <;> rfl
  · rfl
  · simp only [lookup]
    cases P.get_source w.server source_name <;> rfl
  · rfl

theorem keeps_server_get_selected_device (P : Pulseaudio σ) (vm : variables_map)
    (sink_name source_name : String) :
    keeps_server (get_selected_device P vm sink_name source_name) := by
  intro w
  unfold get_selected_device
  simp only [bind_run, Prog.bind, query, lookup, pure_run]
  split_ifs
  · simp only [lookup]
    cases P.get_sink w.server sink_name <;> rfl
  · rfl
  · simp only [lookup]
    cases P.get_source w.server source_name <;> rfl
  · rfl

/-- The snapshot that `get_selected_device` has returned is what it returns
again as long as the server stays as it is. -/
theorem get_selected_device_again (P : Pulseaudio σ) (vm : variables_map)
    (sink_name source_name : String) {w w1 w2 : World σ} {device : Device}
    (h : get_selected_device P vm sink_name source_name w = (.ok device, w1))
    (hs : w2.server = w.server) :
    (get_selected_device P vm sink_name source_name w2).1 = .ok device := by
  rw [get_selected_device_result, hs, ← get_selected_device_result, h]

theorem main_conflicts_ok {vm : variables_map} {w : World σ}
    (hpass : (main_conflicts vm w).1 = .ok ()) : main_conflicts vm w = (.ok (), w) := by
  rw [main_conflicts_run] at hpass ⊢
  cases hf : declared_conflicts.find? (both_given vm) with
  | none => rfl
  | some q =>
    rw [hf] at hpass
    cases hpass

/-- A run that passes the usage guard and the eleven checks is the run of lines
130-189. -/
theorem main_run (P : Pulseaudio σ) (undef : ℕ) (pow : Dbl → Dbl → Dbl) (vm : variables_map)
    (sink_name source_name : String) (value : ℤ) (gamma : Dbl) (w : World σ)
    (husage : ¬ shows_usage vm) (hpass : (main_conflicts vm w).1 = .ok ()) :
    main P undef pow vm sink_name source_name value gamma w =
      (main_device P undef pow vm sink_name source_name value gamma >>= fun device =>
        main_mute P vm device >>= fun _ => main_query P vm device) w := by
  unfold shows_usage at husage
  unfold main
  rw [if_neg husage, bind_ok (main_conflicts_ok hpass)]
  unfold main_device main_lookup
  rw [bind_assoc_run, bind_assoc_run]

/-- The run of lines 132-189 when lines 130-131 have returned `device`. -/
theorem main_run_from_lookup (P : Pulseaudio σ) (undef : ℕ) (pow : Dbl → Dbl → Dbl)
    (vm : variables_map) (sink_name source_name : String) (value : ℤ) (gamma : Dbl)
    {w w1 : World σ} {device : Device}
    (husage : ¬ shows_usage vm) (hpass : (main_conflicts vm w).1 = .ok ())
    (hlookup : main_lookup P vm sink_name source_name w = (.ok device, w1)) :
    main P undef pow vm sink_name source_name value gamma w =
      (main_volume P undef pow vm sink_name source_name value gamma device >>= fun device =>
        main_mute P vm device >>= fun _ => main_query P vm device) w1 := by
  rw [main_run P undef pow vm sink_name source_name value gamma w husage hpass]
  unfold main_device
  rw [bind_assoc_run, bind_ok hlookup]

/-- The run of lines 152-189 after a volume mutation: `set_volume` has received
the boost clamp of the computed volume. -/
theorem main_run_from_set_volume (P : Pulseaudio σ) (undef : ℕ) (pow : Dbl → Dbl → Dbl)
    (vm : variables_map) (sink_name source_name : String) (value : ℤ) (gamma : Dbl)
    (w w1 : World σ) (device : Device)
    (husage : ¬ shows_usage vm) (hpass : (main_conflicts vm w).1 = .ok ())
    (htrig : vm.count .set_volume ≠ 0 ∨ vm.count .increase ≠ 0 ∨ vm.count .decrease ≠ 0)
    (hlookup : main_lookup P vm sink_name source_name w = (.ok device, w1)) :
    main P undef pow vm sink_name source_name value gamma w =
      (get_selected_device P vm sink_name source_name >>= fun device =>
        main_mute P vm device >>= fun _ => main_query P vm device)
        { server := P.set_volume w1.server device
            (boost_clamp vm (converted undef (new_value pow vm device gamma value))),
          calls := w1.calls ++ [.set_volume device
            (boost_clamp vm (converted undef (new_value pow vm device gamma value)))],
          cout := w1.cout } := by
  rw [main_run_from_lookup P undef pow vm sink_name source_name value gamma husage hpass hlookup]
  unfold main_volume
  rw [if_pos htrig, bind_assoc_run]
  rfl

/-- In a run that makes a volume mutation the calls received are those of lines
130-131, then `set_volume` with the boost clamp of the computed volume, then
calls none of which is a `set_volume`. -/
theorem main_calls_of_set_volume (P : Pulseaudio σ) (undef : ℕ) (pow : Dbl → Dbl → Dbl)
    (vm : variables_map) (sink_name source_name : String) (value : ℤ) (gamma : Dbl)
    {w w1 : World σ} {device : Device}
    (husage : ¬ shows_usage vm) (hpass : (main_conflicts vm w).1 = .ok ())
    (htrig : vm.count .set_volume ≠ 0 ∨ vm.count .increase ≠ 0 ∨ vm.count .decrease ≠ 0)
    (hlookup : main_lookup P vm sink_name source_name w = (.ok device, w1)) :
    ∃ pre rest, (main P undef pow vm sink_name source_name value gamma w).2.calls =
        w.calls ++ pre ++ Call.set_volume device
          (boost_clamp vm (converted undef (new_value pow vm device gamma value))) :: rest
      ∧ (∀ c ∈ pre ++ rest, c.is_set_volume = false) := by
  rw [main_run_from_set_volume P undef pow vm sink_name source_name value gamma w w1 device
    husage hpass htrig hlookup]
  obtain ⟨pre, hpre, npre⟩ := no_set_volume_main_lookup P vm sink_name source_name w
  rw [hlookup] at hpre
  have htail : no_set_volume (get_selected_device P vm sink_name source_name >>= fun device =>
      main_mute P vm device >>= fun _ => main_query P vm device) :=
    no_set_volume_bind (no_set_volume_get_selected_device P vm sink_name source_name)
      (fun d => no_set_volume_bind (no_set_volume_main_mute P vm d)
        (fun _ => no_set_volume_main_query P vm d))
  obtain ⟨rest, hrest, nrest⟩ := htail
    { server := P.set_volume w1.server device
        (boost_clamp vm (converted undef (new_value pow vm device gamma value))),
      calls := w1.calls ++ [.set_volume device
        (boost_clamp vm (converted undef (new_value pow vm device gamma value)))],
      cout := w1.cout }
  refine ⟨pre, rest, ?_, ?_⟩
  · rw [hrest]
    simp only at hpre ⊢
    rw [hpre]
    simp
  · intro c hc
    rcases List.mem_append.mp hc with hc | hc
    · exact npre c hc
    · exact nrest c hc

end

theorem given_of_count {vm : variables_map} (hwf : only_gamma_defaulted vm) {o : Opt}
    (ho : o ≠ .gamma) (h : vm.count o ≠ 0) : vm.given o = true := by
  have hd : vm.defaulted o = false := by
    cases hdo : vm.defaulted o
    · rfl
    · exact absurd (hwf o hdo) ho
  simp [variables_map.given, h, hd]

theorem parsed_only_gamma_defaulted (passed : List Opt) : only_gamma_defaulted (parsed passed) := by
  intro o h
  unfold variables_map.defaulted parsed at h
  by_contra hne
  by_cases hp : o ∈ passed <;> simp [hp, hne] at h

theorem new_value_negative (pow : Dbl → Dbl → Dbl) (vm : variables_map) (device : Device)
    (gamma : Dbl) (value : ℤ) (h : value < 0) :
    new_value pow vm device gamma value = new_value pow vm device gamma 0 := by
  unfold new_value
  simp only [if_pos h, lt_self_iff_false, if_false]

theorem new_value_set_volume (pow : Dbl → Dbl → Dbl) (vm : variables_map) (device : Device)
    (gamma : Dbl) (value : ℤ) (h : vm.count .set_volume ≠ 0) {a b c : Dbl}
    (ha : of_int (if value < 0 then 0 else value) = a)
    (hb : fmul a (.fin 65536) = b) (hc : fdiv b (.fin 100) = c) :
    new_value pow vm device gamma value = to_pa_volume_t (fround c) := by
  subst ha hb hc
  unfold new_value
  rw [if_pos h, of_int_norm]

theorem new_value_zero_set_volume (pow : Dbl → Dbl → Dbl) (vm : variables_map)
    (device : Device) (gamma : Dbl) (h : vm.count .set_volume ≠ 0) :
    new_value pow vm device gamma 0 = some 0 := by
  rw [new_value_set_volume pow vm device gamma 0 h (a := .fin 0) (b := .fin 0) (c := .fin 0)
    (by rw [if_neg (lt_irrefl 0)]; exact of_int_zero)
    (fmul_exact (by norm_num) is_double_zero (Or.inr ⟨le_refl _, by norm_num⟩))
    fdiv_zero_hundred]
  simpa using to_pa_volume_t_fround_fin_nat 0 (by norm_num)

theorem new_value_zero_step (pow : Dbl → Dbl → Dbl) (vm : variables_map) (device : Device)
    (gamma : Dbl) (hs : vm.count .set_volume = 0)
    (hid : vm.count .increase ≠ 0 ∨ vm.count .decrease ≠ 0) :
    new_value pow vm device gamma 0 = gammaCorrection pow device.volume_avg gamma 0 := by
  unfold new_value
  simp only [lt_self_iff_false, if_false, hs, ne_eq, not_true_eq_false, neg_zero]
  rcases hid with hi | hd
  · rw [if_pos hi]
  · split_ifs <;> rfl

theorem eval_set_volume_150 :
    new_value libm_pow (parsed [.set_volume]) speakers (.fin 1) 150 = some 98304 := by
  have d2 : is_double 9830400 := by simpa using is_double_int (n := 9830400) (by norm_num)
  have d3 : is_double 98304 := by simpa using is_double_int (n := 98304) (by norm_num)
  rw [new_value_set_volume libm_pow (parsed [.set_volume]) speakers (.fin 1) 150 (by decide)
    (a := .fin 150) (b := .fin 9830400) (c := .fin 98304)
    (by rw [if_neg (by norm_num)]; simpa using of_int_eq (n := 150) (by norm_num))
    (fmul_exact (by norm_num) d2 (Or.inl (by norm_num)))
    (fdiv_exact (by norm_num) (by norm_num) d3 (Or.inl (by norm_num)))]
  simpa using to_pa_volume_t_fround_fin_nat 98304 (by norm_num)

theorem boost_clamp_le (vm : variables_map) (n : ℕ) (hb : vm.count .allow_boost = 0) :
    boost_clamp vm n ≤ PA_VOLUME_NORM ∧
    (PA_VOLUME_NORM < n → boost_clamp vm n = PA_VOLUME_NORM) ∧
    (n ≤ PA_VOLUME_NORM → boost_clamp vm n = n) := by
  unfold boost_clamp
  refine ⟨?_, ?_, ?_⟩
  · split_ifs with h
    · exact le_refl _
    · simp only [hb, true_and, not_lt] at h
      exact h
  · intro h
    rw [if_pos ⟨hb, h⟩]
  · intro h
    rw [if_neg (fun hc => absurd hc.2 (not_lt.mpr h))]

theorem boost_clamp_allow (vm : variables_map) (n : ℕ) (hb : vm.count .allow_boost ≠ 0) :
    boost_clamp vm n = n := by
  unfold boost_clamp
  rw [if_neg (fun hc => hb hc.1)]

theorem main_volume_negative {σ : Type} (P : Pulseaudio σ) (undef : ℕ) (pow : Dbl → Dbl → Dbl)
    (vm : variables_map) (sink_name source_name : String) (value : ℤ) (gamma : Dbl)
    (device : Device) (h : value < 0) :
    main_volume P undef pow vm sink_name source_name value gamma device =
      main_volume P undef pow vm sink_name source_name 0 gamma device := by
  unfold main_volume
  rw [new_value_negative pow vm device gamma value h]

theorem main_mute_run {σ : Type} (P : Pulseaudio σ) (vm : variables_map) (device : Device)
    (w : World σ) :
    ∃ w3, main_mute P vm device w = (.ok (), w3) ∧ w3.cout = w.cout ∧
      (vm.count .toggle_mute = 0 → vm.count .mute = 0 → vm.count .unmute = 0 →
        w3.server = w.server) := by
  unfold main_mute set_mute
  split_ifs with h1 h2 h3
  · exact ⟨_, rfl, rfl, fun h => absurd h h1⟩
  · exact ⟨_, rfl, rfl, fun _ h => absurd h h2⟩
  · exact ⟨_, rfl, rfl, fun _ _ h => absurd h h3⟩
  · exact ⟨_, rfl, rfl, fun _ _ _ => rfl⟩

/-- The snapshot that lines 130-153 return is the state of the device in the
backend at that point: reading the device again gives the same snapshot. -/
theorem main_device_fresh {σ : Type} (P : Pulseaudio σ) (undef : ℕ) (pow : Dbl → Dbl → Dbl)
    (vm : variables_map) (sink_name source_name : String) (value : ℤ) (gamma : Dbl)
    {w w2 w3 : World σ} {device : Device}
    (hdev : main_device P undef pow vm sink_name source_name value gamma w = (.ok device, w2))
    (hs : w3.server = w2.server) :
    (get_selected_device P vm sink_name source_name w3).1 = .ok device := by
  unfold main_device main_lookup at hdev
  rw [bind_assoc_run, bind_run, Prog.bind] at hdev
  cases hc : connect P "pamixer" w with
  | mk r wc =>
    rw [hc] at hdev
    cases r with
    | error e => cases hdev
    | ok u =>
      simp only at hdev
      rw [bind_run, Prog.bind] at hdev
      cases hg : get_selected_device P vm sink_name source_name wc with
      | mk r1 w1 =>
        rw [hg] at hdev
        cases r1 with
        | error e => cases hdev
        | ok d1 =>
          simp only at hdev
          have hw1 : w1.server = wc.server := by
            have := keeps_server_get_selected_device P vm sink_name source_name wc
            rw [hg] at this
            exact this
          unfold main_volume at hdev
          split_ifs at hdev with htrig
          · rw [bind_run, Prog.bind] at hdev
            simp only [mutate] at hdev
            have hk := keeps_server_get_selected_device P vm sink_name source_name
              { server := P.set_volume w1.server d1
                  (boost_clamp vm (converted undef (new_value pow vm d1 gamma value))),
                calls := w1.calls ++ [Call.set_volume d1
                  (boost_clamp vm (converted undef (new_value pow vm d1 gamma value)))],
                cout := w1.cout }
            rw [hdev] at hk
            exact get_selected_device_again P vm sink_name source_name hdev (hs.trans hk)
          · rw [pure_run] at hdev
            cases hdev
            exact get_selected_device_again P vm sink_name source_name hg (hs.trans hw1)

/-! ## The claims -/

/-- C1: for every option set in which both options of one of the eleven declared
pairs are passed (stored and not defaulted) and the usage path is not taken, the
run ends with the `logic_error` that `conflicting_options` throws for the first
such pair in the order of the checks, whose text names both options, and the
world is unchanged: the backend has received no call at all. -/
theorem conflict_aborts_before_backend {σ : Type} (P : Pulseaudio σ) (undef : ℕ)
    (pow : Dbl → Dbl → Dbl) (vm : variables_map) (sink_name source_name : String)
    (value : ℤ) (gamma : Dbl) (w : World σ) (husage : ¬ shows_usage vm)
    (hconf : ∃ p ∈ declared_conflicts, both_given vm p = true) :
    ∃ p, declared_conflicts.find? (both_given vm) = some p ∧
      main P undef pow vm sink_name source_name value gamma w =
        (.error (.logic_error (conflict_message p.1 p.2)), w) := by
  unfold shows_usage at husage
  obtain ⟨p0, hp0, hb0⟩ := hconf
  cases hf : declared_conflicts.find? (both_given vm) with
  | none =>
    have := List.find?_eq_none.mp hf p0 hp0
    rw [hb0] at this
    exact absurd rfl this
  | some p =>
    refine ⟨p, rfl, ?_⟩
    unfold main
    rw [if_neg husage]
    simp only [bind_run, Prog.bind, main_conflicts_run, hf]

/-- C1 (witness): `--set-volume` together with `--increase` on the mock backend
ends with the error naming both options, and the world is the initial one. -/
theorem conflict_aborts_before_backend_witness :
    main mock 0 libm_pow (parsed [.set_volume, .increase]) "" "" 50 (.fin 1) world0 =
      (.error (.logic_error "Conflicting options 'set-volume' and 'increase'."), world0) := by
  obtain ⟨p, hp, hmain⟩ := conflict_aborts_before_backend mock 0 libm_pow
    (parsed [.set_volume, .increase]) "" "" 50 (.fin 1) world0 (by decide)
    ⟨(.set_volume, .increase), by decide, by decide⟩
  have hfirst : declared_conflicts.find? (both_given (parsed [.set_volume, .increase]))
      = some (.set_volume, .increase) := by decide
  rw [hfirst] at hp
  cases hp
  exact hmain

/-- C2 (amended): `get_selected_device` returns the target by first-match
precedence: the named sink if `sink` is stored, else the default source if
`default-source` is stored, else the named source if `source` is stored, else
the default sink.  For an option set that passes the eleven checks of `main`,
`sink` excludes both `default-source` and `source`. -/
theorem get_selected_device_precedence {σ : Type} (P : Pulseaudio σ) (vm : variables_map)
    (sink_name source_name : String) (w : World σ)
    (hpass : (main_conflicts vm w).1 = .ok ()) (hwf : only_gamma_defaulted vm) :
    (get_selected_device P vm sink_name source_name w).1 =
      (if vm.count .sink ≠ 0 then (P.get_sink w.server sink_name).mapError Exn.backend
       else if vm.count .default_source ≠ 0 then .ok (P.get_default_source w.server)
       else if vm.count .source ≠ 0 then (P.get_source w.server source_name).mapError Exn.backend
       else .ok (P.get_default_sink w.server))
    ∧ (vm.count .sink ≠ 0 → vm.count .default_source = 0 ∧ vm.count .source = 0) := by
  constructor
  · exact get_selected_device_result P vm sink_name source_name w
  · intro hs
    have hval := (main_conflicts_ok_iff vm w).mp hpass
    have hgs := given_of_count hwf (by decide) hs
    constructor
    · by_contra hd
      have := hval (.sink, .default_source) (by decide)
      simp [both_given, hgs, given_of_count hwf (by decide) hd] at this
    · by_contra hd
      have := hval (.sink, .source) (by decide)
      simp [both_given, hgs, given_of_count hwf (by decide) hd] at this

/-- C2 (witness): with `--sink alsa_output.pci --get-volume` the named sink is
returned and neither source option is stored. -/
theorem get_selected_device_precedence_witness :
    (get_selected_device mock (parsed [.sink, .get_volume]) "alsa_output.pci" "" world0).1 =
      .ok speakers ∧
    ((parsed [.sink, .get_volume]).count .default_source = 0 ∧
      (parsed [.sink, .get_volume]).count .source = 0) := by
  have h := get_selected_device_precedence mock (parsed [.sink, .get_volume])
    "alsa_output.pci" "" world0 rfl (parsed_only_gamma_defaulted _)
  exact ⟨h.1.trans rfl, h.2 (by decide)⟩

/-- C2 (counterexample): `--default-source --source alsa_input.pci` passes
validation although the second and the third case both apply; the run reaches
exit code 0 and the default source is what is looked up. -/
theorem default_source_with_source_passes_validation :
    (main_conflicts (parsed [.default_source, .source]) world0).1 = .ok () ∧
    validated (parsed [.default_source, .source]) ∧
    (parsed [.default_source, .source]).count .default_source ≠ 0 ∧
    (parsed [.default_source, .source]).count .source ≠ 0 ∧
    (main mock 0 libm_pow (parsed [.default_source, .source]) "" "alsa_input.pci" 0 (.fin 1)
      world0).1 = .ok 0 ∧
    (main mock 0 libm_pow (parsed [.default_source, .source]) "" "alsa_input.pci" 0 (.fin 1)
      world0).2.calls = [.connect "pamixer", .get_default_sink, .get_default_source] := by
  refine ⟨rfl, by decide, by decide, by decide, rfl, by decide⟩

/-- C3: in every run of `main` that makes a volume mutation (`set-volume`,
`increase` or `decrease` is stored, and lines 130-131 have connected and read
`device`), whatever the value, gamma and baseline volume, the backend receives
`set_volume` exactly once, for `device` and with the boost clamp of the computed
volume.  Without `allow-boost` the submitted volume is at most `PA_VOLUME_NORM`,
exactly `PA_VOLUME_NORM` when the computed volume exceeds it and the computed
volume otherwise; with `allow-boost` the computed volume is submitted unchanged. -/
theorem boost_clamp_submitted {σ : Type} (P : Pulseaudio σ) (undef : ℕ)
    (pow : Dbl → Dbl → Dbl) (vm : variables_map) (sink_name source_name : String)
    (value : ℤ) (gamma : Dbl) (w w1 : World σ) (device : Device)
    (husage : ¬ shows_usage vm) (hpass : (main_conflicts vm w).1 = .ok ())
    (htrig : vm.count .set_volume ≠ 0 ∨ vm.count .increase ≠ 0 ∨ vm.count .decrease ≠ 0)
    (hlookup : main_lookup P vm sink_name source_name w = (.ok device, w1)) :
    (∃ pre rest, (main P undef pow vm sink_name source_name value gamma w).2.calls =
        w.calls ++ pre ++ Call.set_volume device
          (boost_clamp vm (converted undef (new_value pow vm device gamma value))) :: rest
      ∧ (∀ c ∈ pre ++ rest, c.is_set_volume = false))
    ∧ (vm.count .allow_boost = 0 →
        boost_clamp vm (converted undef (new_value pow vm device gamma value)) ≤ PA_VOLUME_NORM ∧
        (PA_VOLUME_NORM < converted undef (new_value pow vm device gamma value) →
          boost_clamp vm (converted undef (new_value pow vm device gamma value)) =
            PA_VOLUME_NORM) ∧
        (converted undef (new_value pow vm device gamma value) ≤ PA_VOLUME_NORM →
          boost_clamp vm (converted undef (new_value pow vm device gamma value)) =
            converted undef (new_value pow vm device gamma value)))
    ∧ (vm.count .allow_boost ≠ 0 →
        boost_clamp vm (converted undef (new_value pow vm device gamma value)) =
          converted undef (new_value pow vm device gamma value)) :=
  ⟨main_calls_of_set_volume P undef pow vm sink_name source_name value gamma husage hpass htrig
      hlookup,
    boost_clamp_le vm _, boost_clamp_allow vm _⟩

/-- C3 (witness): `--set-volume 150` on a sink at 50% computes 98304 (150%); the
backend receives `set_volume` once, with `PA_VOLUME_NORM`. -/
theorem boost_clamp_submitted_witness :
    ∃ pre rest,
      (main mock 0 libm_pow (parsed [.set_volume]) "" "" 150 (.fin 1) world0).2.calls =
        world0.calls ++ pre ++ Call.set_volume speakers 65536 :: rest
      ∧ (∀ c ∈ pre ++ rest, c.is_set_volume = false) := by
  have h := (boost_clamp_submitted mock 0 libm_pow (parsed [.set_volume]) "" "" 150 (.fin 1)
    world0 _ speakers (by decide) rfl (by decide) rfl).1
  rw [eval_set_volume_150] at h
  exact h

/-- C4 (amended): with `gamma = 1.0`, and `pow(x, 1.0) = x` as libm gives it, for
every `pa_volume_t` value `v` and every `int` step `d` whose linear step
`round(max(v + d*PA_VOLUME_NORM/100, 0))` is below `2^32`, `gammaCorrection`
computed in binary64 arithmetic returns exactly that linear step. -/
theorem gammaCorrection_gamma_one (pow : Dbl → Dbl → Dbl)
    (hpow : pow_one_exact pow)
    (v : ℕ) (d : ℤ) (hv : v < 2 ^ 32) (hd1 : -2 ^ 31 ≤ d) (hd2 : d < 2 ^ 31)
    (hfit : linear_step v d < 2 ^ 32) :
    gammaCorrection pow v (.fin 1) d = some (linear_step v d).toNat := by
  have hvq : ((v : ℚ)) < 2 ^ 32 := by exact_mod_cast hv
  have hv0 : (0 : ℚ) ≤ v := by positivity
  have hdq1 : -(2 : ℚ) ^ 31 ≤ d := by exact_mod_cast hd1
  have hdq2 : (d : ℚ) < 2 ^ 31 := by exact_mod_cast hd2
  -- the exact conversions
  have h_v : of_int (v : ℤ) = .fin v := of_int_volume hv
  have h_d : of_int d = .fin d := of_int_eq (by rw [abs_lt]; constructor <;> omega)
  -- relRelta
  set r : ℚ := rnd ((d : ℚ) / 100) with hr
  have hd100 : |(d : ℚ) / 100| ≤ 2 ^ (25 : ℤ) := by
    rw [abs_le]; constructor <;> norm_num <;> linarith
  have hr_abs : |r| ≤ 2 ^ (25 : ℤ) := rnd_abs_le_two_pow (by norm_num) hd100
  have hr_fin := fdiv_fin_finite (x := (d : ℚ)) (y := 100) (by norm_num)
    (rnd_le_DBL_MAX (a := 25) (by norm_num) (by norm_num) hd100)
  have hr_err := rnd_error ((d : ℚ) / 100)
  rw [← hr] at hr_err
  -- the linear fraction
  set A : ℚ := (v : ℚ) / 65536 with hA
  have hA0 : 0 ≤ A := by positivity
  have hA16 : A ≤ 2 ^ (16 : ℤ) := by
    rw [hA, div_le_iff₀ (by norm_num)]; norm_num; linarith
  obtain ⟨hA_dbl, h_A⟩ := fdiv_norm_exact hv
  rw [← hA] at hA_dbl h_A
  have h_e : fdiv (.fin 1) (.fin 1) = .fin 1 :=
    fdiv_exact (by norm_num) (by norm_num) is_double_one (Or.inl (by norm_num))
  -- the perceptual value after the step
  set s : ℚ := rnd (A + r) with hs
  have hAr : |A + r| ≤ 2 ^ (26 : ℤ) := by
    have := abs_add A r
    rw [abs_of_nonneg hA0] at this
    have e : (2 : ℚ) ^ (26 : ℤ) = 2 ^ (25 : ℤ) + 2 ^ (25 : ℤ) := by norm_num
    have e2 : (2 : ℚ) ^ (16 : ℤ) ≤ 2 ^ (25 : ℤ) := by norm_num
    linarith
  have hs_max : |s| ≤ DBL_MAX := rnd_le_DBL_MAX (a := 26) (by norm_num) (by norm_num) hAr
  have h_s : fadd (.fin A) (fdiv (.fin (d : ℚ)) (.fin 100)) = .fin s := by
    rw [fadd_of_finite (a := .fin A) rfl hr_fin.1, hr_fin.2, show (Dbl.fin A).val = A from rfl,
      ← hr]
    have hsign : ((Dbl.fin A).sign && (fdiv (.fin (d : ℚ)) (.fin 100)).sign) = false := by
      simp [Dbl.sign, not_lt.mpr hA0]
    rw [hsign]
    rcases le_or_lt 0 (A + r) with hpos | hneg
    · exact round_to_of_nonneg hs_max hpos
    · exact round_to_of_ne_zero false hs_max (fraction_add_step_ne_zero hneg)
  have hs_abs : |s| ≤ 2 ^ (26 : ℤ) := rnd_abs_le_two_pow (by norm_num) hAr
  have hs_err := rnd_error (A + r)
  rw [← hs] at hs_err
  set j4 : ℚ := if s < 0 then 0 else s with hj4
  have hj4_dbl : is_double j4 := by
    rw [hj4]; split_ifs
    · exact is_double_zero
    · exact is_double_rnd hs_max
  have hj4_0 : 0 ≤ j4 := by
    rw [hj4]; split_ifs with h
    · exact le_refl _
    · exact not_lt.mp h
  have hj4_max : j4 = max s 0 := by
    rw [hj4]; split_ifs with h
    · exact (max_eq_right h.le).symm
    · exact (max_eq_left (not_lt.mp h)).symm
  have hj4_abs : j4 ≤ 2 ^ (26 : ℤ) := by
    rw [hj4_max]
    exact max_le (le_trans (le_abs_self s) hs_abs) (by positivity)
  -- back to normalized units
  set j6 : ℚ := rnd (j4 * 65536) with hj6
  have hj4N : |j4 * 65536| ≤ 2 ^ (42 : ℤ) := by
    rw [abs_of_nonneg (by positivity)]
    have e : (2 : ℚ) ^ (42 : ℤ) = 2 ^ (26 : ℤ) * 65536 := by norm_num
    rw [e]
    exact mul_le_mul_of_nonneg_right hj4_abs (by norm_num)
  have h_j6 : fmul (.fin j4) (.fin 65536) = .fin j6 := by
    rw [fmul_of_finite (a := .fin j4) (b := .fin 65536) rfl rfl]
    have hsign : (xor (Dbl.fin j4).sign (Dbl.fin 65536).sign) = false := by
      simp [Dbl.sign, not_lt.mpr hj4_0]
    rw [hsign]
    exact round_to_of_nonneg (rnd_le_DBL_MAX (a := 42) (by norm_num) (by norm_num) hj4N)
      (mul_nonneg hj4_0 (by show (0 : ℚ) ≤ 65536; norm_num))
  have hj6_0 : 0 ≤ j6 := rnd_nonneg (by positivity)
  have hj6_err := rnd_error (j4 * 65536)
  rw [← hj6] at hj6_err
  -- the exact linear step
  set K : ℤ := max (25 * (v : ℤ) + 16384 * d) 0 with hK
  have hK0 : 0 ≤ K := le_max_right _ _
  have hXe : (v : ℚ) + d * 65536 / 100 = ((25 * (v : ℤ) + 16384 * d : ℤ) : ℚ) / 25 := by
    push_cast; ring
  have hYe : A + (d : ℚ) / 100 = ((25 * (v : ℤ) + 16384 * d : ℤ) : ℚ) / 1638400 := by
    rw [hA]; push_cast; ring
  have hX : max ((v : ℚ) + d * PA_VOLUME_NORM / 100) 0 = (K : ℚ) / 25 := by
    rw [norm_cast_eq, hXe, hK]
    rcases le_total 0 (25 * (v : ℤ) + 16384 * d) with h | h
    · rw [max_eq_left h, max_eq_left]
      have : (0 : ℚ) ≤ ((25 * (v : ℤ) + 16384 * d : ℤ) : ℚ) := by exact_mod_cast h
      positivity
    · rw [max_eq_right h, max_eq_right]
      · simp
      · have : ((25 * (v : ℤ) + 16384 * d : ℤ) : ℚ) ≤ 0 := by exact_mod_cast h
        exact div_nonpos_of_nonpos_of_nonneg this (by norm_num)
  have hY : (K : ℚ) / 25 = max (A + (d : ℚ) / 100) 0 * 65536 := by
    rw [hYe, hK]
    rcases le_total 0 (25 * (v : ℤ) + 16384 * d) with h | h
    · rw [max_eq_left h, max_eq_left]
      · ring
      · have : (0 : ℚ) ≤ ((25 * (v : ℤ) + 16384 * d : ℤ) : ℚ) := by exact_mod_cast h
        positivity
    · rw [max_eq_right h, max_eq_right]
      · simp
      · have : ((25 * (v : ℤ) + 16384 * d : ℤ) : ℚ) ≤ 0 := by exact_mod_cast h
        exact div_nonpos_of_nonpos_of_nonneg this (by norm_num)
  -- the accumulated rounding error stays below 1/50
  have hclose : |j6 - (K : ℚ) / 25| < 1 / 50 := by
    have e1 : |r - (d : ℚ) / 100| ≤ 2 ^ (25 : ℤ) * 2 ^ (-53 : ℤ) + 2 ^ (-1075 : ℤ) :=
      le_trans hr_err (by gcongr)
    have e2 : |s - (A + r)| ≤ 2 ^ (26 : ℤ) * 2 ^ (-53 : ℤ) + 2 ^ (-1075 : ℤ) :=
      le_trans hs_err (by gcongr)
    have e3 : |j6 - j4 * 65536| ≤ 2 ^ (42 : ℤ) * 2 ^ (-53 : ℤ) + 2 ^ (-1075 : ℤ) :=
      le_trans hj6_err (by gcongr)
    have e4 : |j4 - max (A + (d : ℚ) / 100) 0| ≤ |s - (A + (d : ℚ) / 100)| := by
      rw [hj4_max]; exact abs_max_sub_max_le_abs _ _ _
    have e5 : |s - (A + (d : ℚ) / 100)| ≤ |s - (A + r)| + |r - (d : ℚ) / 100| := by
      have := abs_add (s - (A + r)) (r - (d : ℚ) / 100)
      have e : s - (A + r) + (r - (d : ℚ) / 100) = s - (A + (d : ℚ) / 100) := by ring
      rwa [e] at this
    have e6 : |j6 - (K : ℚ) / 25| ≤
        |j6 - j4 * 65536| + |j4 - max (A + (d : ℚ) / 100) 0| * 65536 := by
      rw [hY]
      have := abs_add (j6 - j4 * 65536) ((j4 - max (A + (d : ℚ) / 100) 0) * 65536)
      have e : j6 - j4 * 65536 + (j4 - max (A + (d : ℚ) / 100) 0) * 65536
          = j6 - max (A + (d : ℚ) / 100) 0 * 65536 := by ring
      rw [e, abs_mul, abs_of_pos (by norm_num : (0 : ℚ) < 65536)] at this
      exact this
    have t1 : (2 : ℚ) ^ (-1075 : ℤ) ≤ 2 ^ (-53 : ℤ) :=
      zpow_le_zpow_right₀ (by norm_num) (by norm_num)
    have t2 : (2 : ℚ) ^ (-53 : ℤ) = 1 / 9007199254740992 := by norm_num
    rw [t2] at e1 e2 e3 t1
    generalize (2 : ℚ) ^ (-1075 : ℤ) = t at e1 e2 e3 t1
    norm_num at e1 e2 e3
    linarith
  have h_round : c_round j6 = linear_step v d := by
    unfold linear_step
    rw [hX]
    exact c_round_eq_of_close K j6 hK0 hj6_0 hclose
  have h_lin0 : 0 ≤ linear_step v d := by
    rw [← h_round]; exact c_round_nonneg hj6_0
  -- assemble the run
  rw [gammaCorrection_chain pow v (.fin 1) d h_v h_d rfl h_A h_e (hpow A hA_dbl hA0) h_s
    (by rw [clamp_fin, ← hj4]; exact hpow j4 hj4_dbl hj4_0) h_j6,
    to_pa_volume_t_fround (a := .fin j6) rfl (by rw [show (Dbl.fin j6).val = j6 from rfl, h_round]; exact h_lin0)
      (by rw [show (Dbl.fin j6).val = j6 from rfl, h_round]; exact hfit),
    show (Dbl.fin j6).val = j6 from rfl, h_round]

/-- C4 (witness): from 0, a step of 10 gives 6554, the normalized value of 10%;
from 32768 (50%), a step of -100 gives 0. -/
theorem gammaCorrection_gamma_one_witness :
    gammaCorrection libm_pow 0 (.fin 1) 10 = some 6554 ∧
    gammaCorrection libm_pow 32768 (.fin 1) (-100) = some 0 := by
  have h1 := gammaCorrection_gamma_one libm_pow libm_pow_one_exact 0 10 (by norm_num)
    (by norm_num) (by norm_num) (by rw [linear_step_ten]; norm_num)
  have h2 := gammaCorrection_gamma_one libm_pow libm_pow_one_exact 32768 (-100) (by norm_num)
    (by norm_num) (by norm_num) (by rw [linear_step_full_decrease]; norm_num)
  rw [linear_step_ten] at h1
  rw [linear_step_full_decrease] at h2
  exact ⟨h1, h2⟩

/-- C4 (counterexample): from 0, a step of 6553600 has the linear step `2^32`,
which no `pa_volume_t` holds: the conversion of `gammaCorrection` is undefined. -/
theorem gamma_one_step_exceeds_range :
    linear_step 0 6553600 = 2 ^ 32 ∧ gammaCorrection libm_pow 0 (.fin 1) 6553600 = none := by
  refine ⟨?_, eval_gamma_one_overflow⟩
  rw [linear_step_overflow]
  norm_num

/-- C5 (amended): for every volume `v`, every `gamma` at which `pow(., gamma)` is
non-negative and non-decreasing on the doubles from zero to `+∞` (never NaN
there), and every pair of `int` steps `d1 ≤ d2`: when the conversion at the end
of `gammaCorrection(v, gamma, d2)` is defined, so is that of
`gammaCorrection(v, gamma, d1)`, and its result is not larger. -/
theorem gammaCorrection_monotone (pow : Dbl → Dbl → Dbl) (v : ℕ) (gamma : Dbl)
    (d1 d2 : ℤ) (hmono : pow_monotone_at pow gamma)
    (hd1 : -2 ^ 31 ≤ d1) (hd2 : d2 < 2 ^ 31) (h : d1 ≤ d2)
    (b : ℕ) (hb : gammaCorrection pow v gamma d2 = some b) :
    ∃ a, gammaCorrection pow v gamma d1 = some a ∧ a ≤ b := by
  rw [gammaCorrection_eq] at hb ⊢
  obtain ⟨hf1, hf2, hv⟩ := fdiv_hundred_mono h hd1 hd2
  rcases fadd_le_or_eq (pow (fdiv (of_int v) (.fin 65536)) (fdiv (.fin 1) gamma)) hf1 hf2 hv
    with heq | hle
  · rw [heq]
    exact ⟨b, hb, le_refl _⟩
  · obtain ⟨hc0, hc⟩ := clamp_le hle
    obtain ⟨hq0, hq⟩ := hmono _ _ hc0 hc
    obtain ⟨hj0, hj⟩ := fmul_norm_le hq0 hq
    exact to_pa_volume_t_fround_le hj0 hj hb

/-- C5 (witness): at `gamma = 2.0`, from 16384 (25%) the step 0 gives at most what
the step 50 gives (65536); at `gamma = 0.0`, where every step gives 65536, the
step -100 gives at most what the step 100 gives. -/
theorem gammaCorrection_monotone_witness :
    (∃ a, gammaCorrection libm_pow 16384 (.fin 2) 0 = some a ∧ a ≤ 65536) ∧
    (∃ a, gammaCorrection libm_pow 32768 (.fin 0) (-100) = some a ∧ a ≤ 65536) :=
  ⟨gammaCorrection_monotone libm_pow 16384 (.fin 2) 0 50 libm_pow_monotone_at_two
      (by norm_num) (by norm_num) (by norm_num) 65536 eval_gamma_two_half_step,
    gammaCorrection_monotone libm_pow 32768 (.fin 0) (-100) 100 libm_pow_monotone_at_zero
      (by norm_num) (by norm_num) (by norm_num) 65536
      (eval_gamma_zero libm_pow libm_pow_exp_zero 32768 100)⟩

/-- C5 (counterexample): at `gamma = -1.0`, from 65536 the step 0 gives 65536 and
the larger step 100 gives 32768. -/
theorem negative_gamma_reverses_steps :
    gammaCorrection libm_pow 65536 (.fin (-1)) 0 = some 65536 ∧
    gammaCorrection libm_pow 65536 (.fin (-1)) 100 = some 32768 ∧
    ((0 : ℤ) ≤ 100 ∧ ¬ (65536 ≤ 32768)) :=
  ⟨eval_neg_gamma_zero_step, eval_neg_gamma_full_step, by norm_num⟩

/-- C6 (amended): for every `pa_volume_t` value `v` and every `gamma` from
`2^-1023` (so that `1.0/gamma` is finite) to `65536`, if each of the two calls of
`pow` returns a finite double within the relative error `2^-52` of the
mathematical power, then the zero step `gammaCorrection(v, gamma, 0)` computed in
binary64 arithmetic returns `v` itself. -/
theorem gammaCorrection_zero_step (pow : Dbl → Dbl → Dbl) (v : ℕ) (gamma : ℚ)
    (hv : v < 2 ^ 32) (hg0 : (2 : ℚ) ^ (-1023 : ℤ) ≤ gamma) (hg1 : gamma ≤ 65536)
    (h1 : pow_accurate_at pow ((v : ℚ) / PA_VOLUME_NORM) (rnd (1 / gamma)))
    (h2 : ∀ p, pow (.fin ((v : ℚ) / PA_VOLUME_NORM)) (.fin (rnd (1 / gamma))) = .fin p →
      pow_accurate_at pow p gamma) :
    gammaCorrection pow v (.fin gamma) 0 = some v := by
  rw [norm_cast_eq] at h1 h2
  have hgpos : 0 < gamma := lt_of_lt_of_le (by positivity) hg0
  have hvq : ((v : ℚ)) < 2 ^ 32 := by exact_mod_cast hv
  have hv0 : (0 : ℚ) ≤ v := by positivity
  -- the reciprocal of gamma
  have hinv : |1 / gamma| ≤ (2 : ℚ) ^ (1023 : ℤ) := by
    rw [abs_of_pos (by positivity), div_le_iff₀ hgpos]
    have e : (1 : ℚ) = 2 ^ (1023 : ℤ) * 2 ^ (-1023 : ℤ) := by
      rw [← zpow_add₀ (by norm_num : (2 : ℚ) ≠ 0)]; norm_num
    nth_rewrite 1 [e]
    exact mul_le_mul_of_nonneg_left hg0 (by positivity)
  have he : fdiv (.fin 1) (.fin gamma) = .fin (rnd (1 / gamma)) := by
    rw [fdiv_fin (.fin 1) rfl hgpos.ne']
    have hsign : (xor (Dbl.fin 1).sign (decide (gamma < 0))) = false := by
      simp [Dbl.sign, not_lt.mpr hgpos.le]
    rw [hsign]
    exact round_to_of_nonneg (rnd_le_DBL_MAX (a := 1023) (by norm_num) (by norm_num) hinv)
      (div_nonneg (by show (0 : ℚ) ≤ 1; norm_num) hgpos.le)
  have hEG : |rnd (1 / gamma) * gamma - 1| ≤ 1 / 4503599627370496 := by
    have herr := rnd_error (1 / gamma)
    rw [abs_of_pos (by positivity : 0 < 1 / gamma)] at herr
    have e : rnd (1 / gamma) * gamma - 1 = (rnd (1 / gamma) - 1 / gamma) * gamma := by
      field_simp
    rw [e, abs_mul, abs_of_pos hgpos]
    have h3 := mul_le_mul_of_nonneg_right herr hgpos.le
    have e2 : (1 / gamma * 2 ^ (-53 : ℤ) + 2 ^ (-1075 : ℤ)) * gamma
        = 2 ^ (-53 : ℤ) + 2 ^ (-1075 : ℤ) * gamma := by
      field_simp
      ring
    rw [e2] at h3
    have t1 : (2 : ℚ) ^ (-1075 : ℤ) * gamma ≤ 2 ^ (-1075 : ℤ) * 65536 :=
      mul_le_mul_of_nonneg_left hg1 (by positivity)
    have t2 : (2 : ℚ) ^ (-1075 : ℤ) * 65536 ≤ 2 ^ (-53 : ℤ) := by
      rw [show (65536 : ℚ) = 2 ^ (16 : ℤ) by norm_num, ← zpow_add₀ (by norm_num : (2 : ℚ) ≠ 0)]
      exact zpow_le_zpow_right₀ (by norm_num) (by norm_num)
    have t3 : (2 : ℚ) ^ (-53 : ℤ) = 1 / 9007199254740992 := by norm_num
    rw [t3] at h3 t2
    generalize (2 : ℚ) ^ (-1075 : ℤ) = t at h3 t1 t2
    linarith
  -- the two calls of pow
  obtain ⟨p, hp, hpd, hpa⟩ := h1
  obtain ⟨q, hq, hqd, hqa⟩ := h2 p hp
  have hu : (2 : ℝ) ^ (-52 : ℤ) = 1 / 4503599627370496 := by norm_num
  rw [hu] at hpa hqa
  have hJ : (((v : ℚ) / 65536 : ℚ) : ℝ) = 0 ∨
      (1 / 65536 ≤ (((v : ℚ) / 65536 : ℚ) : ℝ) ∧ (((v : ℚ) / 65536 : ℚ) : ℝ) ≤ 65536) := by
    rcases Nat.eq_zero_or_pos v with h0 | h0
    · left; rw [h0]; simp
    · right
      have h1 : (1 : ℝ) ≤ v := by exact_mod_cast h0
      have h2 : (v : ℝ) < 2 ^ 32 := by exact_mod_cast hv
      push_cast
      constructor
      · exact div_le_div_of_nonneg_right h1 (by norm_num)
      · rw [div_le_iff₀ (by norm_num)]; norm_num at h2 ⊢; linarith
  have hEGr : |((rnd (1 / gamma) : ℚ) : ℝ) * (gamma : ℝ) - 1| ≤ 1 / 4503599627370496 := by
    have := (Rat.cast_le (K := ℝ)).mpr hEG
    push_cast at this
    exact this
  have hreal := round_trip_real (E := ((rnd (1 / gamma) : ℚ) : ℝ)) (G := (gamma : ℝ))
    (p := (p : ℝ)) (q := (q : ℝ)) hJ (by exact_mod_cast hgpos) (by exact_mod_cast hg1)
    hEGr hpa hqa
  have hclose : |q - (v : ℚ) / 65536| ≤ (v : ℚ) / 65536 / 17179869184 := by
    exact_mod_cast hreal
  have hp0 : 0 ≤ p := by
    have hT : (0 : ℝ) ≤ (((v : ℚ) / 65536 : ℚ) : ℝ) ^ ((rnd (1 / gamma) : ℚ) : ℝ) :=
      Real.rpow_nonneg (by positivity) _
    have := (abs_le.mp hpa).1
    have h3 : (0 : ℝ) ≤ p := by nlinarith
    exact_mod_cast h3
  have hcl := abs_le.mp hclose
  have hq0 : 0 ≤ q := by
    have : (0 : ℚ) ≤ (v : ℚ) / 65536 := by positivity
    linarith
  -- back to normalized units
  have hqN : |q * 65536| ≤ 2 ^ (34 : ℤ) := by
    rw [abs_of_nonneg (by positivity)]
    norm_num
    linarith
  set j6 : ℚ := rnd (q * 65536) with hj6
  have h_j6 : fmul (.fin q) (.fin 65536) = .fin j6 := by
    rw [fmul_of_finite (a := .fin q) (b := .fin 65536) rfl rfl]
    have hsign : (xor (Dbl.fin q).sign (Dbl.fin 65536).sign) = false := by
      simp [Dbl.sign, not_lt.mpr hq0]
    rw [hsign]
    exact round_to_of_nonneg (rnd_le_DBL_MAX (a := 34) (by norm_num) (by norm_num) hqN)
      (mul_nonneg hq0 (by show (0 : ℚ) ≤ 65536; norm_num))
  have hj6_0 : 0 ≤ j6 := rnd_nonneg (by positivity)
  have hj6_err : |j6 - q * 65536| ≤ 2 ^ (34 : ℤ) * 2 ^ (-53 : ℤ) + 2 ^ (-1075 : ℤ) :=
    le_trans (rnd_error (q * 65536)) (by gcongr)
  have herr : |j6 - q * 65536| ≤ 1 / 8 := by
    have t1 : (2 : ℚ) ^ (-1075 : ℤ) ≤ 2 ^ (-53 : ℤ) :=
      zpow_le_zpow_right₀ (by norm_num) (by norm_num)
    have t2 : (2 : ℚ) ^ (-53 : ℤ) = 1 / 9007199254740992 := by norm_num
    rw [t2] at hj6_err t1
    generalize (2 : ℚ) ^ (-1075 : ℤ) = t at hj6_err t1
    norm_num at hj6_err
    linarith
  have herr' := abs_le.mp herr
  have h_round : c_round j6 = v := by
    rw [c_round_of_nonneg hj6_0, Int.floor_eq_iff]
    push_cast
    constructor <;> linarith
  obtain ⟨hA_dbl, h_A⟩ := fdiv_norm_exact hv
  rw [gammaCorrection_chain pow v (.fin gamma) 0 (of_int_volume hv) of_int_zero
    fdiv_zero_hundred h_A he hp (fadd_exact (add_zero p) hpd (Or.inr (Or.inr (le_refl _))))
    (by rw [clamp_of_nonneg hp0]; exact hq) h_j6,
    to_pa_volume_t_fround (a := .fin j6) rfl
      (by rw [show (Dbl.fin j6).val = j6 from rfl, h_round]; positivity)
      (by rw [show (Dbl.fin j6).val = j6 from rfl, h_round]; exact_mod_cast hv),
    show (Dbl.fin j6).val = j6 from rfl, h_round]
  simp

/-- C6 (witness): at `gamma = 2.0` the two calls `pow(0.25, 0.5) = 0.5` and
`pow(0.5, 2.0) = 0.25` are exact, and the zero step from 16384 (25%) returns
16384; from 0 the two calls give 0 and the zero step returns 0. -/
theorem gammaCorrection_zero_step_witness :
    gammaCorrection libm_pow 16384 (.fin 2) 0 = some 16384 ∧
    gammaCorrection libm_pow 0 (.fin 2) 0 = some 0 := by
  have e1 : ((16384 : ℕ) : ℚ) / PA_VOLUME_NORM = 1 / 4 := by
    rw [norm_cast_eq]; norm_num
  have e0 : ((0 : ℕ) : ℚ) / PA_VOLUME_NORM = 0 := by
    rw [norm_cast_eq]; norm_num
  have e2 : rnd (1 / 2) = 1 / 2 := is_double_half.1
  have r1 : ((1 / 4 : ℚ) : ℝ) ^ ((1 / 2 : ℚ) : ℝ) = 1 / 2 := by
    push_cast
    rw [show (1 / 4 : ℝ) = (1 / 2) ^ (2 : ℝ) by rw [Real.rpow_two]; norm_num,
      ← Real.rpow_mul (by norm_num)]
    norm_num
  have r2 : ((1 / 2 : ℚ) : ℝ) ^ ((2 : ℚ) : ℝ) = 1 / 4 := by
    push_cast
    rw [Real.rpow_two]
    norm_num
  have r3 : ((0 : ℚ) : ℝ) ^ ((1 / 2 : ℚ) : ℝ) = 0 := by
    push_cast
    exact Real.zero_rpow (by norm_num)
  have r4 : ((0 : ℚ) : ℝ) ^ ((2 : ℚ) : ℝ) = 0 := by
    push_cast
    exact Real.zero_rpow (by norm_num)
  have hg : (2 : ℚ) ^ (-1023 : ℤ) ≤ 2 :=
    le_trans (zpow_le_zpow_right₀ (by norm_num) (by norm_num : (-1023 : ℤ) ≤ 0)) (by norm_num)
  constructor
  · exact gammaCorrection_zero_step libm_pow 16384 2 (by norm_num) hg (by norm_num)
      (by
        rw [e1, e2]
        refine ⟨1 / 2, libm_pow_sqrt_quarter, is_double_half, ?_⟩
        rw [r1]
        push_cast
        norm_num)
      (by
        intro p hp
        rw [e1, e2, libm_pow_sqrt_quarter] at hp
        cases hp
        refine ⟨1 / 4, libm_pow_half_squared, is_double_quarter, ?_⟩
        rw [r2]
        push_cast
        norm_num)
  · exact gammaCorrection_zero_step libm_pow 0 2 (by norm_num) hg (by norm_num)
      (by
        rw [e0, e2]
        refine ⟨0, libm_pow_zero (by norm_num), is_double_zero, ?_⟩
        rw [r3]
        push_cast
        norm_num)
      (by
        intro p hp
        rw [e0, e2, libm_pow_zero (by norm_num)] at hp
        cases hp
        refine ⟨0, libm_pow_zero (by norm_num), is_double_zero, ?_⟩
        rw [r4]
        push_cast
        norm_num)

/-- C6 (counterexample): at `gamma = 1/2048 > 0`, `pow(0.5, 2048.0)` underflows to
0 and the zero step takes 32768 to 0. -/
theorem zero_step_underflows :
    (0 : ℚ) < 1 / 2048 ∧ gammaCorrection libm_pow 32768 (.fin (1 / 2048)) 0 = some 0 ∧
    ¬ (|(0 : ℤ) - 32768| ≤ 1) :=
  ⟨by norm_num, eval_tiny_gamma_zero_step, by norm_num⟩

/-- C7 (amended): in every run of `main` that makes a volume mutation, a negative
`value` is treated as 0: the whole run is the run with value 0, and the backend
receives `set_volume` exactly once, with 0 when `set-volume` is stored and else
(`increase` or `decrease`) with the boost clamp of
`gammaCorrection(volume_avg, gamma, 0)`, never with a step of the opposite sign. -/
theorem negative_value_is_zero {σ : Type} (P : Pulseaudio σ) (undef : ℕ)
    (pow : Dbl → Dbl → Dbl) (vm : variables_map) (sink_name source_name : String)
    (value : ℤ) (gamma : Dbl) (w w1 : World σ) (device : Device)
    (husage : ¬ shows_usage vm) (hpass : (main_conflicts vm w).1 = .ok ())
    (htrig : vm.count .set_volume ≠ 0 ∨ vm.count .increase ≠ 0 ∨ vm.count .decrease ≠ 0)
    (hlookup : main_lookup P vm sink_name source_name w = (.ok device, w1))
    (hneg : value < 0) :
    main P undef pow vm sink_name source_name value gamma w =
      main P undef pow vm sink_name source_name 0 gamma w
    ∧ ∃ pre rest, (main P undef pow vm sink_name source_name value gamma w).2.calls =
        w.calls ++ pre ++ Call.set_volume device
          (if vm.count .set_volume ≠ 0 then 0
           else boost_clamp vm
            (converted undef (gammaCorrection pow device.volume_avg gamma 0))) :: rest
      ∧ (∀ c ∈ pre ++ rest, c.is_set_volume = false) := by
  have hsub : boost_clamp vm (converted undef (new_value pow vm device gamma value)) =
      (if vm.count .set_volume ≠ 0 then 0
       else boost_clamp vm (converted undef (gammaCorrection pow device.volume_avg gamma 0))) := by
    rw [new_value_negative pow vm device gamma value hneg]
    by_cases hs : vm.count .set_volume ≠ 0
    · rw [if_pos hs, new_value_zero_set_volume pow vm device gamma hs]
      unfold boost_clamp converted PA_VOLUME_NORM
      simp
    · rw [if_neg hs]
      have hs0 : vm.count .set_volume = 0 := not_not.mp hs
      rw [new_value_zero_step pow vm device gamma hs0 (htrig.resolve_left hs)]
  refine ⟨?_, ?_⟩
  · rw [main_run_from_lookup P undef pow vm sink_name source_name value gamma husage hpass
        hlookup,
      main_run_from_lookup P undef pow vm sink_name source_name 0 gamma husage hpass hlookup,
      main_volume_negative P undef pow vm sink_name source_name value gamma device hneg]
  · rw [← hsub]
    exact main_calls_of_set_volume P undef pow vm sink_name source_name value gamma husage
      hpass htrig hlookup

/-- C7 (witness): `--increase=-5` on a sink at 50% runs as `--increase 0`, and
the backend receives `set_volume` once, with the volume 32768 the sink has. -/
theorem negative_value_is_zero_witness :
    main mock 0 libm_pow (parsed [.increase]) "" "" (-5) (.fin 1) world0 =
      main mock 0 libm_pow (parsed [.increase]) "" "" 0 (.fin 1) world0
    ∧ ∃ pre rest,
      (main mock 0 libm_pow (parsed [.increase]) "" "" (-5) (.fin 1) world0).2.calls =
        world0.calls ++ pre ++ Call.set_volume speakers 32768 :: rest
      ∧ (∀ c ∈ pre ++ rest, c.is_set_volume = false) := by
  have h := negative_value_is_zero mock 0 libm_pow (parsed [.increase]) "" "" (-5) (.fin 1)
    world0 _ speakers (by decide) rfl (by decide) rfl (by norm_num)
  have hx : (if (parsed [.increase]).count .set_volume ≠ 0 then 0
      else boost_clamp (parsed [.increase])
        (converted 0 (gammaCorrection libm_pow speakers.volume_avg (.fin 1) 0))) = 32768 := by
    rw [if_neg (by decide), show speakers.volume_avg = 32768 from rfl,
      gamma_one_zero_step libm_pow libm_pow_one_exact 32768 (by norm_num)]
    rfl
  rw [hx] at h
  exact h

/-- C7 (counterexample): `--increase=-5` without `--allow-boost` on a sink at
150% (`volume_avg = 98304`): `set_volume` receives 65536, while
`gammaCorrection(98304, 1.0, 0)` is 98304. -/
theorem negative_increase_on_boosted_sink_is_clamped :
    (main mock 0 libm_pow (parsed [.increase]) "" "" (-5) (.fin 1) world_loud).2.calls =
      [.connect "pamixer", .get_default_sink, .set_volume loud 65536, .get_default_sink] ∧
    gammaCorrection libm_pow loud.volume_avg (.fin 1) 0 = some 98304 := by
  have hg : gammaCorrection libm_pow loud.volume_avg (.fin 1) 0 = some 98304 := by
    rw [show loud.volume_avg = 98304 from rfl]
    exact gamma_one_zero_step libm_pow libm_pow_one_exact 98304 (by norm_num)
  have hx : boost_clamp (parsed [.increase])
      (converted 0 (new_value libm_pow (parsed [.increase]) loud (.fin 1) (-5))) = 65536 := by
    rw [new_value_negative libm_pow (parsed [.increase]) loud (.fin 1) (-5) (by norm_num),
      new_value_zero_step libm_pow (parsed [.increase]) loud (.fin 1) (by decide)
        (Or.inl (by decide)), hg]
    rfl
  refine ⟨?_, hg⟩
  rw [main_run_from_set_volume mock 0 libm_pow (parsed [.increase]) "" "" (-5) (.fin 1)
    world_loud _ loud (by decide) rfl (by decide) rfl, hx]
  rfl

/-- C8 (the code at the failing input): `--mute --get-mute` on an unmuted default
sink.  The device is read once, before `set_mute`; the snapshot printed and
turned into the exit code is the one from before the mutation (`false`, exit
code 1), while the backend's sink is muted afterwards. -/
theorem mute_then_get_mute_reads_stale_snapshot :
    (main mock 0 libm_pow (parsed [.mute, .get_mute]) "" "" 0 (.fin 1) world0).1 = .ok 1 ∧
    (main mock 0 libm_pow (parsed [.mute, .get_mute]) "" "" 0 (.fin 1) world0).2.cout =
      [.text "false"] ∧
    (main mock 0 libm_pow (parsed [.mute, .get_mute]) "" "" 0 (.fin 1) world0).2.calls =
      [.connect "pamixer", .get_default_sink, .set_mute speakers true] ∧
    (mock.get_default_sink
      (main mock 0 libm_pow (parsed [.mute, .get_mute]) "" "" 0 (.fin 1) world0).2.server).mute
      = true := by
  refine ⟨rfl, by decide, by decide, rfl⟩

/-- C9: for every run of `main` that passes the usage guard and the eleven checks
and in which lines 130-153 return the snapshot `device`, the query step returns:
with `get-volume` stored the run prints the `volume_percent` of `device` and the
exit code is 0 if that is positive and 1 otherwise; else with `get-mute` stored
it prints `true` or `false` after the mute flag of `device` and the exit code is
0 if muted and 1 otherwise; in every other case, the listings included, the exit
code is 0.  When no mute option is stored, `device` is the state of the device in
the backend when the run ends: reading it again returns the same snapshot. -/
theorem main_query_exit_code {σ : Type} (P : Pulseaudio σ) (undef : ℕ)
    (pow : Dbl → Dbl → Dbl) (vm : variables_map) (sink_name source_name : String)
    (value : ℤ) (gamma : Dbl) (w w2 : World σ) (device : Device)
    (husage : ¬ shows_usage vm) (hpass : (main_conflicts vm w).1 = .ok ())
    (hdev : main_device P undef pow vm sink_name source_name value gamma w = (.ok device, w2)) :
    (main P undef pow vm sink_name source_name value gamma w).1 =
      .ok (if vm.count .get_volume ≠ 0 then (if device.volume_percent > 0 then 0 else 1)
           else if vm.count .get_mute ≠ 0 then (if device.mute then 0 else 1)
           else 0)
    ∧ (vm.count .get_volume ≠ 0 →
        (main P undef pow vm sink_name source_name value gamma w).2.cout =
          w.cout ++ [.text (toString device.volume_percent)])
    ∧ (vm.count .get_volume = 0 → vm.count .get_mute ≠ 0 →
        (main P undef pow vm sink_name source_name value gamma w).2.cout =
          w.cout ++ [.text (if device.mute then "true" else "false")])
    ∧ (vm.count .toggle_mute = 0 → vm.count .mute = 0 → vm.count .unmute = 0 →
        (get_selected_device P vm sink_name source_name
          (main P undef pow vm sink_name source_name value gamma w).2).1 = .ok device) := by
  obtain ⟨w3, hmute, hcout3, hserver3⟩ := main_mute_run P vm device w2
  have hcout2 : w2.cout = w.cout := by
    have := no_output_main_device P undef pow vm sink_name source_name value gamma w
    rw [hdev] at this
    exact this
  have hrun : main P undef pow vm sink_name source_name value gamma w =
      main_query P vm device w3 := by
    rw [main_run P undef pow vm sink_name source_name value gamma w husage hpass,
      bind_ok hdev, bind_ok hmute]
  obtain ⟨hcode, hserver, _, hvol, hmut⟩ := main_query_run P vm device w3
  rw [hrun]
  refine ⟨hcode, ?_, ?_, ?_⟩
  · intro h
    rw [hvol h, hcout3, hcout2]
  · intro h1 h2
    rw [hmut h1 h2, hcout3, hcout2]
  · intro h1 h2 h3
    exact main_device_fresh P undef pow vm sink_name source_name value gamma hdev
      (hserver.trans (hserver3 h1 h2 h3))

/-- C9 (witness): `--get-mute` on a muted sink prints `true` and exits with 0;
`--get-volume` on a sink at 50% prints `50` and exits with 0. -/
theorem main_query_exit_code_witness :
    ((main mock 0 libm_pow (parsed [.get_mute]) "" "" 0 (.fin 1) world_muted).1 = .ok 0 ∧
      (main mock 0 libm_pow (parsed [.get_mute]) "" "" 0 (.fin 1) world_muted).2.cout =
        [.text "true"]) ∧
    ((main mock 0 libm_pow (parsed [.get_volume]) "" "" 0 (.fin 1) world0).1 = .ok 0 ∧
      (main mock 0 libm_pow (parsed [.get_volume]) "" "" 0 (.fin 1) world0).2.cout =
        [.text "50"]) := by
  have h1 := main_query_exit_code mock 0 libm_pow (parsed [.get_mute]) "" "" 0 (.fin 1)
    world_muted _ muted (by decide) rfl rfl
  have h2 := main_query_exit_code mock 0 libm_pow (parsed [.get_volume]) "" "" 0 (.fin 1)
    world0 _ speakers (by decide) rfl rfl
  exact ⟨⟨h1.1, h1.2.2.1 (by decide) (by decide)⟩, ⟨h2.1, h2.2.1 (by decide)⟩⟩

/-- C10 (amended): for every option set in which `help` is stored or which stores
fewer than two options (the `gamma` entry, always stored through its default
value, counts), the run shows usage, exits with code 0 and leaves the server and
the list of backend calls untouched. -/
theorem usage_path {σ : Type} (P : Pulseaudio σ) (undef : ℕ) (pow : Dbl → Dbl → Dbl)
    (vm : variables_map) (sink_name source_name : String) (value : ℤ) (gamma : Dbl)
    (w : World σ) (h : vm.count .help ≠ 0 ∨ vm.size < 2) :
    main P undef pow vm sink_name source_name value gamma w =
      (.ok 0, { w with cout := w.cout ++ [.usage] }) := by
  unfold main
  rw [if_pos h]
  rfl

/-- C10 (witness): a command line without options shows usage and calls nothing. -/
theorem usage_path_witness :
    main mock 0 libm_pow (parsed []) "" "" 0 (.fin 1) world0 =
      (.ok 0, { world0 with cout := world0.cout ++ [.usage] }) :=
  usage_path mock 0 libm_pow (parsed []) "" "" 0 (.fin 1) world0 (by decide)

/-- C10 (counterexample): `--default-source` alone stores no action option, yet
the run connects and looks the device up, shows no usage and exits with 0. -/
theorem no_action_option_reaches_backend :
    (∀ o ∈ action_options, (parsed [.default_source]).count o = 0) ∧
    (main mock 0 libm_pow (parsed [.default_source]) "" "" 0 (.fin 1) world0).1 = .ok 0 ∧
    (main mock 0 libm_pow (parsed [.default_source]) "" "" 0 (.fin 1) world0).2.calls =
      [.connect "pamixer", .get_default_sink, .get_default_source] ∧
    (main mock 0 libm_pow (parsed [.default_source]) "" "" 0 (.fin 1) world0).2.cout = [] := by
  refine ⟨by decide, rfl, by decide, by decide⟩

/-! ## Further properties -/

theorem mem_all (o : Opt) : o ∈ Opt.all := by
  cases o <;> decide

theorem parsed_find_isSome (passed : List Opt) (o : Opt) :
    ((parsed passed).find o).isSome = (decide (o ∈ passed) || decide (o = .gamma)) := by
  unfold parsed
  by_cases h1 : o ∈ passed
  · simp [h1]
  · by_cases h2 : o = .gamma
    · subst h2; simp [h1]
    · simp [h1, h2]

/-- X1: the stored options of a command line are fewer than two exactly when
nothing but `gamma` was passed, since `gamma` is always stored. -/
theorem parsed_size_lt_two (passed : List Opt) :
    (parsed passed).size < 2 ↔ ∀ o ∈ passed, o = Opt.gamma := by
  unfold variables_map.size
  constructor
  · intro hlt o ho
    by_contra hne
    have h1 : o ∈ Opt.all.filter fun o => ((parsed passed).find o).isSome :=
      List.mem_filter.mpr ⟨mem_all o, by simp [parsed_find_isSome, ho]⟩
    have h2 : Opt.gamma ∈ Opt.all.filter fun o => ((parsed passed).find o).isSome :=
      List.mem_filter.mpr ⟨mem_all _, by simp [parsed_find_isSome]⟩
    generalize (Opt.all.filter fun o => ((parsed passed).find o).isSome) = l at hlt h1 h2
    match l, hlt, h1, h2 with
    | [], _, h1, _ => simp at h1
    | [a], _, h1, h2 =>
      simp only [List.mem_singleton] at h1 h2
      exact hne (h1.trans h2.symm)
    | _ :: _ :: _, hlt, _, _ =>
      simp only [List.length_cons] at hlt
      omega
  · intro hall
    have hcongr : (Opt.all.filter fun o => ((parsed passed).find o).isSome)
        = Opt.all.filter fun o => decide (o = Opt.gamma) := by
      apply List.filter_congr
      intro o _
      rw [parsed_find_isSome]
      by_cases h : o ∈ passed
      · simp [hall o h]
      · simp [h]
    rw [hcongr]
    decide

/-- X2: with `set-volume` stored, a value of 0 computes the volume 0 and a value
of 100 computes `PA_VOLUME_NORM`, whatever the device and gamma. -/
theorem set_volume_endpoints (pow : Dbl → Dbl → Dbl) (vm : variables_map) (device : Device)
    (gamma : Dbl) (h : vm.count .set_volume ≠ 0) :
    new_value pow vm device gamma 0 = some 0 ∧
    new_value pow vm device gamma 100 = some PA_VOLUME_NORM := by
  refine ⟨new_value_zero_set_volume pow vm device gamma h, ?_⟩
  have d2 : is_double 6553600 := by simpa using is_double_int (n := 6553600) (by norm_num)
  rw [new_value_set_volume pow vm device gamma 100 h
    (a := .fin 100) (b := .fin 6553600) (c := .fin 65536)
    (by rw [if_neg (by norm_num)]; simpa using of_int_eq (n := 100) (by norm_num))
    (fmul_exact (by norm_num) d2 (Or.inl (by norm_num)))
    (fdiv_exact (by norm_num) (by norm_num) is_double_65536 (Or.inl (by norm_num)))]
  exact to_pa_volume_t_fround_norm

/-- X2 (witness): `--set-volume` on the mock backend. -/
theorem set_volume_endpoints_witness :
    new_value libm_pow (parsed [.set_volume]) speakers (.fin 1) 0 = some 0 ∧
    new_value libm_pow (parsed [.set_volume]) speakers (.fin 1) 100 = some PA_VOLUME_NORM :=
  set_volume_endpoints libm_pow (parsed [.set_volume]) speakers (.fin 1) (by decide)

/-- X3: at `gamma = 0.0`, where `1.0/gamma` is `+∞`, `gammaCorrection` returns
`PA_VOLUME_NORM` for every volume and every step, given `pow(x, 0.0) = 1` for
every `x` (C11 F.10.4.4). -/
theorem gamma_zero_gives_norm (pow : Dbl → Dbl → Dbl) (hpow : ∀ x, pow x (.fin 0) = .fin 1)
    (v : ℕ) (d : ℤ) : gammaCorrection pow v (.fin 0) d = some PA_VOLUME_NORM :=
  eval_gamma_zero pow hpow v d

/-- X3 (witness): from 32768 a step of -1000 at `gamma = 0.0`. -/
theorem gamma_zero_gives_norm_witness :
    gammaCorrection libm_pow 32768 (.fin 0) (-1000) = some PA_VOLUME_NORM :=
  gamma_zero_gives_norm libm_pow libm_pow_exp_zero 32768 (-1000)

/-- X4: at `gamma = -1.0` a zero volume with a positive step goes through
`pow(0, -1.0) = +∞` and `pow(+∞, -1.0) = 0`: the result is 0. -/
theorem negative_gamma_from_zero : gammaCorrection libm_pow 0 (.fin (-1)) 10 = some 0 := by
  have dm : is_double (-1) := by simpa using is_double_int (n := -1) (by norm_num)
  have hR : (fdiv (.fin 10) (.fin 100)).is_finite = true :=
    (fdiv_fin_finite (x := 10) (y := 100) (by norm_num)
      (rnd_le_DBL_MAX (a := 0) (by norm_num) (by norm_num)
        (by rw [abs_of_pos (by norm_num)]; norm_num))).1
  rw [gammaCorrection_chain libm_pow 0 (.fin (-1)) 10 of_int_zero
    (by simpa using of_int_eq (n := 10) (by norm_num)) rfl
    (fdiv_exact (by norm_num) (by norm_num) is_double_zero (Or.inr ⟨le_refl _, by norm_num⟩))
    (fdiv_exact (by norm_num) (by norm_num) dm (Or.inl (by norm_num)))
    (libm_pow_zero_neg (by norm_num))
    (fadd_inf_left (a := .pinf) rfl hR)
    (by rw [show flt .pinf (.fin 0) = false from rfl]; exact libm_pow_pinf_neg (by norm_num))
    (fmul_exact (by norm_num) is_double_zero (Or.inr ⟨le_refl _, by norm_num⟩))]
  simpa using to_pa_volume_t_fround_fin_nat 0 (by norm_num)

end Pamixer
